import Mathlib

/-!
Verification of the payoff analytics engine of the index-payout-planner
repository (source: src/unnamed/part_007).  The engine is embedded shallowly:
JavaScript numbers are modelled as exact rationals (ℚ), `Math.round(x*100)/100`
as `round2`, and the accumulating `for` loop of `generatePayoffCurve` as a
fuel-indexed recursion (`curveGo`) so that its non-termination at
`centerPrice = 0` is expressible (`none` = the loop has not exited).
Breakdown description strings are modelled structurally (constructor per
template) rather than as formatted text.
-/

namespace PayoffPlanner

/-- `Math.round (x * 100) / 100` : round to cents, halves toward +infinity. -/
def round2 (x : ℚ) : ℚ := (⌊x * 100 + 1 / 2⌋ : ℚ) / 100

/-- Asset class of an instrument (`type` field in the source). -/
inductive AssetClass where
  | index | etf | future | microFuture | stock
deriving DecidableEq

/-- Contract metadata (interface `Instrument` in the source). `family` is the
optional `'SPX' | 'NDX'` tag, modelled as `Option String`. -/
structure Instrument where
  symbol : String
  name : String
  family : Option String
  type : AssetClass
  multiplier : ℚ
  tickSize : ℚ
  strikeInterval : ℚ
deriving DecidableEq

inductive OptionType where
  | call | put
deriving DecidableEq

inductive PositionSide where
  | long | short
deriving DecidableEq

/-- A position leg (interface `OptionLeg` in the source). -/
structure OptionLeg where
  id : String
  instrument : Instrument
  optionType : OptionType
  side : PositionSide
  strike : ℚ
  premium : ℚ
  quantity : ℚ
  expiration : Option String
deriving DecidableEq

/-- A sampled point of the payoff curve. -/
structure PayoffPoint where
  price : ℚ
  pnl : ℚ
deriving DecidableEq

/-- `calculateLegPayoff` from the source. -/
def calculateLegPayoff (leg : OptionLeg) (underlyingPrice : ℚ) : ℚ :=
  let multiplier := leg.instrument.multiplier
  let intrinsicValue :=
    if leg.optionType = OptionType.call then
      max 0 (underlyingPrice - leg.strike)
    else
      max 0 (leg.strike - underlyingPrice)
  let optionValue := intrinsicValue - leg.premium
  let positionPnL :=
    if leg.side = PositionSide.long then optionValue else -optionValue
  positionPnL * leg.quantity * multiplier

/-- `calculateTotalPayoff` from the source (`reduce` with initial value 0). -/
def calculateTotalPayoff (legs : List OptionLeg) (underlyingPrice : ℚ) : ℚ :=
  legs.foldl (fun total leg => total + calculateLegPayoff leg underlyingPrice) 0

/-- One pushed point of the curve loop body. -/
def mkPoint (legs : List OptionLeg) (price : ℚ) : PayoffPoint :=
  { price := round2 price, pnl := round2 (calculateTotalPayoff legs price) }

/-- The source's `for (let price = minPrice; price <= maxPrice; price += step)`
loop, indexed by fuel.  `none` means the fuel ran out before the loop
condition became false, i.e. the loop has not exited within `fuel` tests. -/
def curveGo (legs : List OptionLeg) (maxPrice step : ℚ) :
    Nat → ℚ → Option (List PayoffPoint)
  | 0, price => if price ≤ maxPrice then none else some []
  | n + 1, price =>
    if price ≤ maxPrice then
      Option.map (fun rest => mkPoint legs price :: rest)
        (curveGo legs maxPrice step n (price + step))
    else
      some []

/-- `generatePayoffCurve` with an explicit fuel bound on the loop. -/
def generatePayoffCurveFuel (legs : List OptionLeg) (currentPrice range : ℚ)
    (fuel : Nat) : Option (List PayoffPoint) :=
  let minPrice := currentPrice * (1 - range)
  let maxPrice := currentPrice * (1 + range)
  let step := (maxPrice - minPrice) / 100
  curveGo legs maxPrice step fuel minPrice

/-- `generatePayoffCurve` from the source.  Fuel 102 covers the 101 loop
iterations plus the final failing test whenever the loop exits at all. -/
def generatePayoffCurve (legs : List OptionLeg) (currentPrice range : ℚ) :
    Option (List PayoffPoint) :=
  generatePayoffCurveFuel legs currentPrice range 102

/-- Body of the breakeven scan: the source iterates `i = 1 .. length-1`
over `(prev, curr) = (curve[i-1], curve[i])`, which is the pairwise walk
below.  Matches the source's crossing test and interpolation formula. -/
def scanBE : List PayoffPoint → List ℚ
  | p0 :: p1 :: rest =>
    if (p0.pnl < 0 ∧ 0 ≤ p1.pnl) ∨ (0 ≤ p0.pnl ∧ p1.pnl < 0) then
      round2 (p0.price + |p0.pnl| / (|p0.pnl| + |p1.pnl|) * (p1.price - p0.price))
        :: scanBE (p1 :: rest)
    else
      scanBE (p1 :: rest)
  | _ => []

/-- `calculateBreakevens` from the source: scan the ±30% curve. -/
def calculateBreakevens (legs : List OptionLeg) (currentPrice : ℚ) :
    Option (List ℚ) :=
  Option.map scanBE (generatePayoffCurve legs currentPrice (3 / 10))

/-- Result of `calculateMaxProfit` / `calculateMaxLoss`:
`number | 'unlimited'`. -/
inductive MaxR where
  | unlimited
  | num (value : ℚ)
deriving DecidableEq

/-- True on the sentinel value. -/
def MaxR.isUnlimited : MaxR → Bool
  | .unlimited => true
  | .num _ => false

/-- `arr.every((p, i) => i === 0 || p[i] >= p[i-1])`: non-decreasing test. -/
def nondecrB : List ℚ → Bool
  | x :: y :: rest => decide (x ≤ y) && nondecrB (y :: rest)
  | _ => true

/-- `arr.every((p, i) => i === 0 || p[i] <= p[i-1])`: non-increasing test. -/
def nonincrB : List ℚ → Bool
  | x :: y :: rest => decide (y ≤ x) && nonincrB (y :: rest)
  | _ => true

/-- `curve.slice(-5)`: the last 5 elements. -/
def lastFive (l : List PayoffPoint) : List PayoffPoint :=
  l.drop (l.length - 5)

/-- `calculateMaxProfit` from the source.  JavaScript's
`Math.max(...[])` is `-Infinity`, which has no rational value; together with
the non-terminating-loop case both non-finite outcomes are collapsed into
`none` (never hit for `currentPrice > 0`, where the curve has 101 points). -/
def calculateMaxProfit (legs : List OptionLeg) (currentPrice : ℚ) :
    Option MaxR :=
  (generatePayoffCurve legs currentPrice (1 / 2)).bind fun payoffCurve =>
    match payoffCurve with
    | [] => none
    | h :: t =>
      let maxPnL := (t.map (·.pnl)).foldl max h.pnl
      let isIncreasing := nondecrB ((lastFive (h :: t)).map (·.pnl))
      if isIncreasing ∧ 0 < maxPnL then some MaxR.unlimited
      else some (MaxR.num maxPnL)

/-- `calculateMaxLoss` from the source (same conventions as
`calculateMaxProfit`). -/
def calculateMaxLoss (legs : List OptionLeg) (currentPrice : ℚ) :
    Option MaxR :=
  (generatePayoffCurve legs currentPrice (1 / 2)).bind fun payoffCurve =>
    match payoffCurve with
    | [] => none
    | h :: t =>
      let minPnL := (t.map (·.pnl)).foldl min h.pnl
      let isDecreasing := nonincrB (((h :: t).take 5).map (·.pnl))
      if isDecreasing ∧ minPnL < 0 then some MaxR.unlimited
      else some (MaxR.num minPnL)

/-- Margin classification enum. -/
inductive MarginType where
  | cashSecured | spread | naked | longOnly
deriving DecidableEq

/-- Breakdown line description, modelled structurally: one constructor per
template string of the source. -/
inductive LineDesc where
  | longAggregate
  | spreadLine (optionType : OptionType) (shortStrike longStrike : ℚ)
  | nakedLine (optionType : OptionType) (symbol : String) (strike : ℚ)
  | longLine (optionType : OptionType) (symbol : String) (strike : ℚ)
deriving DecidableEq

structure BreakLine where
  description : LineDesc
  amount : ℚ
deriving DecidableEq

structure MarginResult where
  margin : ℚ
  marginType : MarginType
  breakdown : List BreakLine
deriving DecidableEq

/-- Mutable state threaded through the three margin passes:
`processedShorts` / `processedLongs` are the id sets, plus the accumulated
breakdown, running total and current classification. -/
structure MarginSt where
  pS : List String
  pL : List String
  breakdown : List BreakLine
  total : ℚ
  marginType : MarginType

/-- The matching predicate of the spread-pairing `find` call, as a Bool
exactly as in the source. -/
def matchesB (pL : List String) (shortLeg l : OptionLeg) : Bool :=
  !pL.contains l.id &&
    decide (l.optionType = shortLeg.optionType) &&
    decide (l.instrument.family = shortLeg.instrument.family) &&
    decide (l.quantity = shortLeg.quantity)

/-- One iteration of the spread-pairing loop. -/
def spreadStep (longLegs : List OptionLeg) (st : MarginSt)
    (shortLeg : OptionLeg) : MarginSt :=
  if st.pS.contains shortLeg.id then st
  else
    match longLegs.find? (matchesB st.pL shortLeg) with
    | some matchingLong =>
      let strikeWidth := |shortLeg.strike - matchingLong.strike|
      let spreadMargin :=
        strikeWidth * shortLeg.quantity * shortLeg.instrument.multiplier
      { pS := shortLeg.id :: st.pS
        pL := matchingLong.id :: st.pL
        breakdown := st.breakdown ++
          [⟨LineDesc.spreadLine shortLeg.optionType shortLeg.strike
              matchingLong.strike, spreadMargin⟩]
        total := st.total + spreadMargin
        marginType := MarginType.spread }
    | none => st

/-- One iteration of the naked-short loop. -/
def nakedStep (currentPrice : ℚ) (st : MarginSt) (shortLeg : OptionLeg) :
    MarginSt :=
  if st.pS.contains shortLeg.id then st
  else
    let multiplier := shortLeg.instrument.multiplier
    let underlyingValue := currentPrice * multiplier * shortLeg.quantity
    let premiumValue := shortLeg.premium * multiplier * shortLeg.quantity
    let otmAmount :=
      if shortLeg.optionType = OptionType.call ∧ currentPrice < shortLeg.strike
      then (shortLeg.strike - currentPrice) * multiplier * shortLeg.quantity
      else if shortLeg.optionType = OptionType.put ∧
          shortLeg.strike < currentPrice
      then (currentPrice - shortLeg.strike) * multiplier * shortLeg.quantity
      else 0
    let method1 := underlyingValue * (20 / 100) + premiumValue - otmAmount
    let method2 :=
      shortLeg.strike * multiplier * shortLeg.quantity * (10 / 100) +
        premiumValue
    let nakedMargin := max method1 method2
    { st with
      breakdown := st.breakdown ++
        [⟨LineDesc.nakedLine shortLeg.optionType shortLeg.instrument.symbol
            shortLeg.strike, nakedMargin⟩]
      total := st.total + nakedMargin
      marginType := MarginType.naked }

/-- One iteration of the leftover-long loop. -/
def longStep (st : MarginSt) (longLeg : OptionLeg) : MarginSt :=
  if st.pL.contains longLeg.id then st
  else
    let longPremium :=
      longLeg.premium * longLeg.quantity * longLeg.instrument.multiplier
    { st with
      breakdown := st.breakdown ++
        [⟨LineDesc.longLine longLeg.optionType longLeg.instrument.symbol
            longLeg.strike, longPremium⟩]
      total := st.total + longPremium }

/-- Initial pass state. -/
def initSt : MarginSt := ⟨[], [], [], 0, MarginType.longOnly⟩

/-- The spread-pairing pass over the short legs. -/
def spreadPass (legs : List OptionLeg) : MarginSt :=
  let shortLegs := legs.filter (fun l => l.side = PositionSide.short)
  let longLegs := legs.filter (fun l => l.side = PositionSide.long)
  shortLegs.foldl (spreadStep longLegs) initSt

/-- Ids of short legs consumed by the spread-pairing pass. -/
def pairedShortIds (legs : List OptionLeg) : List String :=
  (spreadPass legs).pS

/-- `calculateMarginRequirement` from the source. -/
def calculateMarginRequirement (legs : List OptionLeg) (currentPrice : ℚ) :
    MarginResult :=
  if legs = [] then ⟨0, MarginType.longOnly, []⟩
  else
    let shortLegs := legs.filter (fun l => l.side = PositionSide.short)
    let longLegs := legs.filter (fun l => l.side = PositionSide.long)
    if shortLegs = [] then
      let longPremium := longLegs.foldl
        (fun sum leg =>
          sum + leg.premium * leg.quantity * leg.instrument.multiplier) 0
      ⟨longPremium, MarginType.longOnly, [⟨LineDesc.longAggregate, longPremium⟩]⟩
    else
      let st1 := spreadPass legs
      let st2 := shortLegs.foldl (nakedStep currentPrice) st1
      let st3 := longLegs.foldl longStep st2
      ⟨round2 st3.total, st3.marginType, st3.breakdown⟩

/-! ### Arithmetic facts about cent rounding -/

lemma round2_mono {x y : ℚ} (h : x ≤ y) : round2 x ≤ round2 y := by
  unfold round2
  have hf : (⌊x * 100 + 1 / 2⌋ : ℤ) ≤ ⌊y * 100 + 1 / 2⌋ :=
    Int.floor_mono (by linarith)
  have hq : ((⌊x * 100 + 1 / 2⌋ : ℤ) : ℚ) ≤ ((⌊y * 100 + 1 / 2⌋ : ℤ) : ℚ) := by
    exact_mod_cast hf
  linarith

lemma round2_intCast_div (n : ℤ) : round2 ((n : ℚ) / 100) = (n : ℚ) / 100 := by
  unfold round2
  have h1 : (n : ℚ) / 100 * 100 + 1 / 2 = (1 : ℚ) / 2 + n := by ring
  rw [h1, Int.floor_add_int]
  norm_num

lemma round2_round2 (x : ℚ) : round2 (round2 x) = round2 x :=
  round2_intCast_div _

lemma round2_zero : round2 0 = 0 := by
  have := round2_intCast_div 0
  simpa using this

lemma round2_le (x : ℚ) : round2 x ≤ x + 1 / 200 := by
  unfold round2
  have h := Int.floor_le (x * 100 + 1 / 2)
  linarith

lemma lt_round2 (x : ℚ) : x - 1 / 200 < round2 x := by
  unfold round2
  have h := Int.lt_floor_add_one (x * 100 + 1 / 2)
  linarith

lemma round2_neg_iff {x : ℚ} : round2 x < 0 ↔ x < -(1 / 200) := by
  unfold round2
  rw [div_lt_iff₀ (by norm_num : (0:ℚ) < 100)]
  norm_num
  rw [Int.floor_lt]
  push_cast
  constructor <;> intro h <;> linarith

lemma round2_pos_iff {x : ℚ} : 0 < round2 x ↔ 1 / 200 ≤ x := by
  unfold round2
  rw [lt_div_iff₀ (by norm_num : (0:ℚ) < 100)]
  norm_num
  have h0 : (0 < ⌊x * 100 + 1 / 2⌋) ↔ (1 : ℤ) ≤ ⌊x * 100 + 1 / 2⌋ := by omega
  rw [h0, Int.le_floor]
  push_cast
  constructor <;> intro h <;> linarith

lemma round2_add_cent (x : ℚ) : round2 (x + 1 / 100) = round2 x + 1 / 100 := by
  unfold round2
  have h1 : (x + 1 / 100) * 100 + 1 / 2 = x * 100 + 1 / 2 + (1 : ℤ) := by
    push_cast; ring
  rw [h1, Int.floor_add_int]
  push_cast; ring

lemma round2_strict_mono {x y : ℚ} (h : x + 1 / 100 ≤ y) :
    round2 x < round2 y := by
  have h1 : round2 (x + 1 / 100) ≤ round2 y := round2_mono h
  rw [round2_add_cent] at h1
  linarith

lemma round2_nonneg {x : ℚ} (h : 0 ≤ x) : 0 ≤ round2 x := by
  have := round2_mono h
  rwa [round2_zero] at this

/-! ### Folded maxima and minima -/

lemma foldl_max_le {b : ℚ} :
    ∀ (l : List ℚ) (a : ℚ), (∀ x ∈ l, x ≤ b) → a ≤ b → l.foldl max a ≤ b := by
  intro l
  induction l with
  | nil => intro a _ ha; simpa using ha
  | cons x xs ih =>
    intro a hl ha
    simp only [List.foldl_cons]
    exact ih (max a x)
      (fun y hy => hl y (List.mem_cons_of_mem _ hy))
      (max_le ha (hl x (List.mem_cons_self _ _)))

lemma le_foldl_max :
    ∀ (l : List ℚ) (a : ℚ), a ≤ l.foldl max a := by
  intro l
  induction l with
  | nil => intro a; simp
  | cons x xs ih =>
    intro a
    simp only [List.foldl_cons]
    exact le_trans (le_max_left a x) (ih (max a x))

lemma mem_le_foldl_max :
    ∀ (l : List ℚ) (a x : ℚ), x ∈ l → x ≤ l.foldl max a := by
  intro l
  induction l with
  | nil => intro a x hx; simp at hx
  | cons y ys ih =>
    intro a x hx
    rcases List.mem_cons.mp hx with h | h
    · subst h
      simp only [List.foldl_cons]
      exact le_trans (le_max_right a x) (le_foldl_max ys _)
    · simp only [List.foldl_cons]
      exact ih (max a y) x h

lemma le_foldl_min {b : ℚ} :
    ∀ (l : List ℚ) (a : ℚ), (∀ x ∈ l, b ≤ x) → b ≤ a → b ≤ l.foldl min a := by
  intro l
  induction l with
  | nil => intro a _ ha; simpa using ha
  | cons x xs ih =>
    intro a hl ha
    simp only [List.foldl_cons]
    exact ih (min a x)
      (fun y hy => hl y (List.mem_cons_of_mem _ hy))
      (le_min ha (hl x (List.mem_cons_self _ _)))

lemma foldl_min_le :
    ∀ (l : List ℚ) (a : ℚ), l.foldl min a ≤ a := by
  intro l
  induction l with
  | nil => intro a; simp
  | cons x xs ih =>
    intro a
    simp only [List.foldl_cons]
    exact le_trans (ih (min a x)) (min_le_left a x)

lemma foldl_min_le_mem :
    ∀ (l : List ℚ) (a x : ℚ), x ∈ l → l.foldl min a ≤ x := by
  intro l
  induction l with
  | nil => intro a x hx; simp at hx
  | cons y ys ih =>
    intro a x hx
    rcases List.mem_cons.mp hx with h | h
    · subst h
      simp only [List.foldl_cons]
      exact le_trans (foldl_min_le ys _) (min_le_right a x)
    · simp only [List.foldl_cons]
      exact ih (min a y) x h

/-! ### The total payoff as a sum -/

lemma calculateTotalPayoff_eq_sum (legs : List OptionLeg) (p : ℚ) :
    calculateTotalPayoff legs p =
      (legs.map (fun leg => calculateLegPayoff leg p)).sum := by
  unfold calculateTotalPayoff
  suffices h : ∀ (l : List OptionLeg) (a : ℚ),
      l.foldl (fun total leg => total + calculateLegPayoff leg p) a =
        a + (l.map (fun leg => calculateLegPayoff leg p)).sum by
    simpa using h legs 0
  intro l
  induction l with
  | nil => intro a; simp
  | cons x xs ih =>
    intro a
    simp only [List.foldl_cons, List.map_cons, List.sum_cons, ih]
    ring

lemma calculateTotalPayoff_perm {l₁ l₂ : List OptionLeg}
    (h : l₁.Perm l₂) (p : ℚ) :
    calculateTotalPayoff l₁ p = calculateTotalPayoff l₂ p := by
  rw [calculateTotalPayoff_eq_sum, calculateTotalPayoff_eq_sum]
  exact (h.map _).sum_eq

/-! ### Closed form of the payoff curve -/

/-- The k-th sampled price of the curve over `centerPrice = c`, `range = r`. -/
def priceAt (c r : ℚ) (k : ℕ) : ℚ := c * (1 - r) + k * (c * r / 50)

lemma curveGo_exit {legs : List OptionLeg} {maxP step price : ℚ}
    (h : maxP < price) (fuel : ℕ) :
    curveGo legs maxP step fuel price = some [] := by
  cases fuel <;> simp [curveGo, not_le.mpr h]

lemma curveGo_closed {legs : List OptionLeg} {maxP step : ℚ} (hs : 0 < step) :
    ∀ (n fuel : ℕ) (price : ℚ), price + n * step ≤ maxP →
      maxP < price + n * step + step → n < fuel →
      curveGo legs maxP step fuel price =
        some ((List.range (n + 1)).map
          (fun k : ℕ => mkPoint legs (price + (k : ℚ) * step))) := by
  intro n
  induction n with
  | zero =>
    intro fuel price hle hlt hf
    obtain ⟨m, rfl⟩ : ∃ m, fuel = m + 1 := ⟨fuel - 1, by omega⟩
    have hple : price ≤ maxP := by push_cast at hle; linarith
    have hnext : maxP < price + step := by push_cast at hlt; linarith
    simp only [curveGo, if_pos hple, curveGo_exit hnext m, Option.map_some']
    simp only [List.range_succ, List.range_zero, List.nil_append,
      List.map_cons, List.map_nil, Nat.cast_zero, zero_mul, add_zero]
  | succ n ih =>
    intro fuel price hle hlt hf
    obtain ⟨m, rfl⟩ : ∃ m, fuel = m + 1 := ⟨fuel - 1, by omega⟩
    have hstep_nn : (0 : ℚ) ≤ ((n : ℚ) + 1) * step := by positivity
    have hple : price ≤ maxP := by push_cast at hle; linarith
    have hle' : (price + step) + n * step ≤ maxP := by push_cast at hle ⊢; linarith
    have hlt' : maxP < (price + step) + n * step + step := by
      push_cast at hlt ⊢; linarith
    have hf' : n < m := by omega
    simp only [curveGo, if_pos hple, ih m (price + step) hle' hlt' hf',
      Option.map_some']
    congr 1
    conv_rhs => rw [List.range_succ_eq_map]
    simp only [List.map_cons, List.map_map]
    congr 1
    · norm_num
    · apply List.map_congr_left
      intro k _
      simp only [Function.comp_apply]
      congr 1
      push_cast
      ring

lemma generatePayoffCurve_closed (legs : List OptionLeg) {c r : ℚ}
    (h : 0 < c * r) :
    generatePayoffCurve legs c r =
      some ((List.range 101).map (fun k => mkPoint legs (priceAt c r k))) := by
  show curveGo legs (c * (1 + r)) ((c * (1 + r) - c * (1 - r)) / 100) 102
      (c * (1 - r)) = _
  have hstep : (c * (1 + r) - c * (1 - r)) / 100 = c * r / 50 := by ring
  have hs : 0 < c * r / 50 := by linarith
  rw [hstep]
  have h1 : c * (1 - r) + (100 : ℕ) * (c * r / 50) ≤ c * (1 + r) := by
    push_cast; nlinarith [h]
  have h2 : c * (1 + r) <
      c * (1 - r) + (100 : ℕ) * (c * r / 50) + c * r / 50 := by
    push_cast; nlinarith [h]
  exact curveGo_closed hs 100 102 (c * (1 - r)) h1 h2 (by omega)

/-! ### Curves depend on the legs only through the total payoff -/

lemma curveGo_congr {l₁ l₂ : List OptionLeg} {maxP step : ℚ}
    (h : ∀ p, calculateTotalPayoff l₁ p = calculateTotalPayoff l₂ p) :
    ∀ (fuel : ℕ) (price : ℚ),
      curveGo l₁ maxP step fuel price = curveGo l₂ maxP step fuel price := by
  intro fuel
  induction fuel with
  | zero => intro price; rfl
  | succ n ih =>
    intro price
    simp only [curveGo, ih, mkPoint, h]

lemma generatePayoffCurve_congr {l₁ l₂ : List OptionLeg}
    (h : ∀ p, calculateTotalPayoff l₁ p = calculateTotalPayoff l₂ p)
    (c r : ℚ) :
    generatePayoffCurve l₁ c r = generatePayoffCurve l₂ c r :=
  curveGo_congr h 102 _

/-! ### Sample data used by witnesses and counterexamples -/

/-- The SPX instrument from the source's catalog. -/
def spxI : Instrument :=
  ⟨"SPX", "SPX Index", some "SPX", AssetClass.index, 100, 1 / 100, 5⟩

/-- The spec's §8 scenario leg: long call strike 5850, premium 20, qty 1. -/
def legScenario : OptionLeg :=
  ⟨"w1", spxI, OptionType.call, PositionSide.long, 5850, 20, 1, none⟩

/-- Long call strike 100, premium 5 (breakeven 105). -/
def legLC100 : OptionLeg :=
  ⟨"w2", spxI, OptionType.call, PositionSide.long, 100, 5, 1, none⟩

/-- Short call strike 100, premium 2. -/
def legSC100 : OptionLeg :=
  ⟨"w3", spxI, OptionType.call, PositionSide.short, 100, 2, 1, none⟩

/-- Short call struck far above the sampled window. -/
def legSCFar : OptionLeg :=
  ⟨"w4", spxI, OptionType.call, PositionSide.short, 1000, 1, 1, none⟩

/-- Long call strike 100, premium 2 (for the C9 long-call witness). -/
def legLC100b : OptionLeg :=
  ⟨"w5", spxI, OptionType.call, PositionSide.long, 100, 2, 1, none⟩

/-- Short call strike 100 for the margin permutation counterexample. -/
def legMS : OptionLeg :=
  ⟨"ma", spxI, OptionType.call, PositionSide.short, 100, 2, 1, none⟩

/-- Long call strike 105, premium 0. -/
def legML1 : OptionLeg :=
  ⟨"mb", spxI, OptionType.call, PositionSide.long, 105, 0, 1, none⟩

/-- Long call strike 110, premium 0. -/
def legML2 : OptionLeg :=
  ⟨"mc", spxI, OptionType.call, PositionSide.long, 110, 0, 1, none⟩

/-! ### C1 : per-leg payoff formula -/

/-- The claim's formula for the payoff of an option leg, following the spec's
words: signed intrinsic-minus-premium times quantity times multiplier. -/
def legPayoffSpec (leg : OptionLeg) (p : ℚ) : ℚ :=
  (if leg.side = PositionSide.long then 1 else -1) *
    ((if leg.optionType = OptionType.call then max 0 (p - leg.strike)
      else max 0 (leg.strike - p)) - leg.premium) *
    leg.quantity * leg.instrument.multiplier

/-- C1: for every option leg with positive quantity and multiplier and every
price, `calculateLegPayoff` equals s × (intrinsic − premium) × quantity ×
multiplier with s = ±1 by side and intrinsic the call/put intrinsic value. -/
theorem claim1_leg_payoff (leg : OptionLeg) (p : ℚ)
    (hq : 0 < leg.quantity) (hm : 0 < leg.instrument.multiplier) :
    calculateLegPayoff leg p = legPayoffSpec leg p := by
  rcases leg with ⟨i, inst, ot, sd, k, prem, q, e⟩
  cases sd <;> cases ot <;>
    simp only [calculateLegPayoff, legPayoffSpec, if_true, if_false,
      reduceCtorEq, ite_true, ite_false] <;>
    ring

/-- C1 witness at the spec's §8 scenario leg and price 6000. -/
theorem claim1_witness :
    0 < legScenario.quantity ∧ 0 < legScenario.instrument.multiplier ∧
      calculateLegPayoff legScenario 6000 = legPayoffSpec legScenario 6000 :=
  ⟨by norm_num [legScenario], by norm_num [legScenario, spxI],
    claim1_leg_payoff legScenario 6000 (by norm_num [legScenario])
      (by norm_num [legScenario, spxI])⟩

/-! ### C4 : the curve loop does not terminate at centerPrice = 0 -/

lemma curveGo_step_zero {legs : List OptionLeg} {maxP price : ℚ}
    (h : price ≤ maxP) :
    ∀ fuel, curveGo legs maxP 0 fuel price = none := by
  intro fuel
  induction fuel with
  | zero => simp [curveGo, h]
  | succ n ih => simp [curveGo, h, ih]

/-- C4 is contradicted by the code: at `centerPrice = 0` the sampling step is
0 and the loop guard `price <= maxPrice` stays true, so the `for` loop of
`generatePayoffCurve` never exits — for every fuel bound the loop is still
running (`none`), instead of returning a single-point (or any finite)
sequence. -/
theorem claim4_nonterminating (legs : List OptionLeg) (r : ℚ) :
    (∀ fuel, generatePayoffCurveFuel legs 0 r fuel = none) ∧
      generatePayoffCurve legs 0 r = none := by
  constructor
  · intro fuel
    show curveGo legs (0 * (1 + r)) ((0 * (1 + r) - 0 * (1 - r)) / 100) fuel
      (0 * (1 - r)) = none
    have hstep : (0 * (1 + r) - 0 * (1 - r)) / 100 = (0 : ℚ) := by ring
    have hle : (0 : ℚ) * (1 - r) ≤ 0 * (1 + r) := by norm_num
    rw [hstep]
    exact curveGo_step_zero hle fuel
  · show curveGo legs (0 * (1 + r)) ((0 * (1 + r) - 0 * (1 - r)) / 100) 102
      (0 * (1 - r)) = none
    have hstep : (0 * (1 + r) - 0 * (1 - r)) / 100 = (0 : ℚ) := by ring
    have hle : (0 : ℚ) * (1 - r) ≤ 0 * (1 + r) := by norm_num
    rw [hstep]
    exact curveGo_step_zero hle 102

/-! ### C5 : the curve of an empty leg list is not empty -/

/-- C5 counterexample: with no legs, centerPrice 100 and range 15%, the curve
has 101 points — not the empty sequence the claim asserts. -/
theorem claim5_counterexample :
    (generatePayoffCurve [] 100 (3 / 20)).map List.length = some 101 ∧
      generatePayoffCurve [] 100 (3 / 20) ≠ some [] := by
  have h := @generatePayoffCurve_closed [] 100 (3 / 20) (by norm_num)
  constructor
  · rw [h]
    simp
  · rw [h]
    intro hcontra
    have hlen := congrArg (Option.map List.length) hcontra
    simp at hlen

/-- The curve of the empty leg list: 101 points with pnl 0. -/
lemma emptyCurve {c r : ℚ} (h : 0 < c * r) :
    generatePayoffCurve [] c r =
      some ((List.range 101).map
        (fun k => ⟨round2 (priceAt c r k), 0⟩ : ℕ → PayoffPoint)) := by
  rw [generatePayoffCurve_closed [] h]
  congr 1
  apply List.map_congr_left
  intro k _
  show mkPoint [] (priceAt c r k) = _
  unfold mkPoint
  rw [show calculateTotalPayoff [] (priceAt c r k) = 0 from rfl, round2_zero]

/-- C5 amended: for centerPrice > 0 and range > 0, the empty leg list yields
a flat curve of 101 points, each with pnl = 0 (not the empty sequence). -/
theorem claim5_amended (c r : ℚ) (hc : 0 < c) (hr : 0 < r) :
    generatePayoffCurve [] c r =
      some ((List.range 101).map
        (fun k => ⟨round2 (priceAt c r k), 0⟩ : ℕ → PayoffPoint)) :=
  emptyCurve (mul_pos hc hr)

/-- C5 amended witness at centerPrice 100, range 15%. -/
theorem claim5_witness :
    (0 : ℚ) < 100 ∧ (0 : ℚ) < 3 / 20 ∧
      generatePayoffCurve [] 100 (3 / 20) =
        some ((List.range 101).map
          (fun k => ⟨round2 (priceAt 100 (3 / 20) k), 0⟩ : ℕ → PayoffPoint)) :=
  ⟨by norm_num, by norm_num, claim5_amended 100 (3 / 20) (by norm_num) (by norm_num)⟩

/-! ### C2 : shape of the payoff curve -/

/-- The curve in closed form: 101 indexed samples. -/
def closedCurve (legs : List OptionLeg) (c r : ℚ) : List PayoffPoint :=
  (List.range 101).map (fun k => mkPoint legs (priceAt c r k))

/-- C2 counterexample: with centerPrice 0.1 and range 15% the sampling step is
0.003/10 = 0.0003, while cent rounding moves the first sample from 0.085 to
0.09.  The first two point prices are both 0.09 (so strictly increasing
prices fail), and the first price misses the left endpoint by 0.005 > one
sampling step. -/
theorem claim2_counterexample :
    (generatePayoffCurve [] (1 / 10) (3 / 20)).map
        (fun pts => (pts.take 2).map (fun q => q.price)) =
      some [9 / 100, 9 / 100] ∧
    ¬(|(9 : ℚ) / 100 - 1 / 10 * (1 - 3 / 20)| ≤
        (1 / 10 * (1 + 3 / 20) - 1 / 10 * (1 - 3 / 20)) / 100) := by
  have h := @generatePayoffCurve_closed [] (1 / 10) (3 / 20) (by norm_num)
  constructor
  · rw [h]
    simp only [Option.map_some']
    congr 1
    rw [← List.map_take, (by decide : List.take 2 (List.range 101) = [0, 1])]
    simp only [List.map_cons, List.map_nil, mkPoint, priceAt]
    norm_num [round2]
  · norm_num [abs_le, round2]

/-- C2 amended: for centerPrice > 0 and range > 0, the curve has exactly 101
points, sampled at the 100-equal-step grid over the range with price and pnl
rounded to cents; prices are non-decreasing (strictly increasing whenever one
sampling step is at least one cent), and the first/last prices are the two
endpoints rounded to cents, hence within half a cent of them (within one
sampling step only when the step is at least half a cent). -/
theorem claim2_amended (legs : List OptionLeg) (c r : ℚ)
    (hc : 0 < c) (hr : 0 < r) :
    generatePayoffCurve legs c r = some (closedCurve legs c r) ∧
    (closedCurve legs c r).length = 101 ∧
    closedCurve legs c r = (List.range 101).map (fun k : ℕ =>
      { price := round2 (c * (1 - r) +
          (k : ℚ) * ((c * (1 + r) - c * (1 - r)) / 100)),
        pnl := round2 (calculateTotalPayoff legs (c * (1 - r) +
          (k : ℚ) * ((c * (1 + r) - c * (1 - r)) / 100))) }) ∧
    List.Chain' (fun a b => a.price ≤ b.price) (closedCurve legs c r) ∧
    (closedCurve legs c r).head?.map (fun q => q.price) =
      some (round2 (c * (1 - r))) ∧
    (closedCurve legs c r).getLast?.map (fun q => q.price) =
      some (round2 (c * (1 + r))) ∧
    |round2 (c * (1 - r)) - c * (1 - r)| ≤ 1 / 200 ∧
    |round2 (c * (1 + r)) - c * (1 + r)| ≤ 1 / 200 ∧
    (1 / 100 ≤ c * r / 50 →
      List.Chain' (fun a b => a.price < b.price) (closedCurve legs c r)) := by
  have hcr : 0 < c * r := mul_pos hc hr
  have hstep : ∀ k : ℕ,
      c * (1 - r) + (k : ℚ) * ((c * (1 + r) - c * (1 - r)) / 100) =
        priceAt c r k := by
    intro k; unfold priceAt; ring
  have hmono : ∀ m : ℕ, priceAt c r m + c * r / 50 = priceAt c r (m + 1) := by
    intro m; unfold priceAt; push_cast; ring
  refine ⟨generatePayoffCurve_closed legs hcr, by simp [closedCurve], ?_, ?_,
    ?_, ?_, ?_, ?_, ?_⟩
  · apply List.map_congr_left
    intro k _
    rw [hstep k]
    rfl
  · unfold closedCurve
    rw [List.chain'_map, (by rfl : (101 : ℕ) = 100 + 1),
      List.chain'_range_succ]
    intro m _
    show round2 (priceAt c r m) ≤ round2 (priceAt c r (m + 1))
    apply round2_mono
    rw [← hmono m]
    linarith
  · unfold closedCurve
    rw [List.head?_map, (by decide : (List.range 101).head? = some 0)]
    simp only [Option.map_some']
    show some (round2 (priceAt c r 0)) = _
    congr 1
    unfold priceAt
    push_cast
    ring
  · unfold closedCurve
    rw [(by rfl : (101 : ℕ) = 100 + 1), List.range_succ, List.map_append,
      List.map_cons, List.map_nil, List.getLast?_concat]
    simp only [Option.map_some']
    show some (round2 (priceAt c r 100)) = _
    congr 1
    unfold priceAt
    push_cast
    ring
  · exact abs_le.mpr ⟨by linarith [lt_round2 (c * (1 - r))],
      by linarith [round2_le (c * (1 - r))]⟩
  · exact abs_le.mpr ⟨by linarith [lt_round2 (c * (1 + r))],
      by linarith [round2_le (c * (1 + r))]⟩
  · intro hbig
    unfold closedCurve
    rw [List.chain'_map, (by rfl : (101 : ℕ) = 100 + 1),
      List.chain'_range_succ]
    intro m _
    show round2 (priceAt c r m) < round2 (priceAt c r (m + 1))
    apply round2_strict_mono
    rw [← hmono m]
    linarith

/-- C2 amended witness: the scenario leg at centerPrice 100, range 15%. -/
theorem claim2_witness :
    (0 : ℚ) < 100 ∧ (0 : ℚ) < 3 / 20 ∧
      generatePayoffCurve [legLC100] 100 (3 / 20) =
        some (closedCurve [legLC100] 100 (3 / 20)) ∧
      (closedCurve [legLC100] 100 (3 / 20)).length = 101 :=
  ⟨by norm_num, by norm_num,
    (claim2_amended [legLC100] 100 (3 / 20) (by norm_num) (by norm_num)).1,
    (claim2_amended [legLC100] 100 (3 / 20) (by norm_num) (by norm_num)).2.1⟩

/-! ### C10 : the empty position -/

lemma foldl_max_all_eq {a : ℚ} :
    ∀ {l : List ℚ}, (∀ x ∈ l, x = a) → l.foldl max a = a := by
  intro l h
  exact le_antisymm
    (foldl_max_le l a (fun x hx => le_of_eq (h x hx)) le_rfl)
    (le_foldl_max l a)

lemma foldl_min_all_eq {a : ℚ} :
    ∀ {l : List ℚ}, (∀ x ∈ l, x = a) → l.foldl min a = a := by
  intro l h
  exact le_antisymm (foldl_min_le l a)
    (le_foldl_min l a (fun x hx => ge_of_eq (h x hx)) le_rfl)

lemma nondecrB_of_const {a : ℚ} :
    ∀ (l : List ℚ), (∀ x ∈ l, x = a) → nondecrB l = true := by
  intro l
  induction l with
  | nil => intro _; rfl
  | cons x t ih =>
    intro h
    cases t with
    | nil => rfl
    | cons y r =>
      have hx : x = a := h x (List.mem_cons_self _ _)
      have hy : y = a := h y (List.mem_cons_of_mem _ (List.mem_cons_self _ _))
      simp only [nondecrB, Bool.and_eq_true, decide_eq_true_eq]
      exact ⟨by rw [hx, hy], ih (fun z hz => h z (List.mem_cons_of_mem _ hz))⟩

lemma nonincrB_of_const {a : ℚ} :
    ∀ (l : List ℚ), (∀ x ∈ l, x = a) → nonincrB l = true := by
  intro l
  induction l with
  | nil => intro _; rfl
  | cons x t ih =>
    intro h
    cases t with
    | nil => rfl
    | cons y r =>
      have hx : x = a := h x (List.mem_cons_self _ _)
      have hy : y = a := h y (List.mem_cons_of_mem _ (List.mem_cons_self _ _))
      simp only [nonincrB, Bool.and_eq_true, decide_eq_true_eq]
      exact ⟨by rw [hx, hy], ih (fun z hz => h z (List.mem_cons_of_mem _ hz))⟩

lemma scanBE_of_zero_pnl :
    ∀ (l : List PayoffPoint), (∀ p ∈ l, p.pnl = 0) → scanBE l = [] := by
  intro l
  induction l with
  | nil => intro _; rfl
  | cons p0 t ih =>
    intro h
    cases t with
    | nil => rfl
    | cons p1 r =>
      have h0 : p0.pnl = 0 := h p0 (List.mem_cons_self _ _)
      have h1 : p1.pnl = 0 :=
        h p1 (List.mem_cons_of_mem _ (List.mem_cons_self _ _))
      have hcond : ¬((p0.pnl < 0 ∧ 0 ≤ p1.pnl) ∨ (0 ≤ p0.pnl ∧ p1.pnl < 0)) := by
        rw [h0, h1]; simp
      simp only [scanBE, if_neg hcond]
      exact ih (fun q hq => h q (List.mem_cons_of_mem _ hq))

/-- The empty-legs curve split into head and tail. -/
lemma emptyCurve_cons {c r : ℚ} (h : 0 < c * r) :
    generatePayoffCurve [] c r =
      some ((⟨round2 (priceAt c r 0), 0⟩ : PayoffPoint) ::
        (List.range 100).map
          (fun k => ⟨round2 (priceAt c r (k + 1)), 0⟩ : ℕ → PayoffPoint)) := by
  rw [emptyCurve h]
  congr 1

/-- C10: on the empty leg list with positive current price, max profit and
max loss are the number 0 (not the sentinel) and there are no breakevens. -/
theorem claim10_empty_position (c : ℚ) (hc : 0 < c) :
    calculateMaxProfit [] c = some (MaxR.num 0) ∧
    calculateMaxLoss [] c = some (MaxR.num 0) ∧
    calculateBreakevens [] c = some [] := by
  have h2 : 0 < c * (1 / 2) := by linarith
  have h3 : 0 < c * (3 / 10) := by linarith
  have hmem0 : ∀ x ∈ (List.range 100).map
      (fun k => (⟨round2 (priceAt c (1 / 2) (k + 1)), 0⟩ : PayoffPoint)),
      x.pnl = 0 := by
    intro x hx
    obtain ⟨k, _, rfl⟩ := List.mem_map.mp hx
    rfl
  refine ⟨?_, ?_, ?_⟩
  · unfold calculateMaxProfit
    rw [emptyCurve_cons h2]
    simp only [Option.some_bind]
    have hmax : ((List.range 100).map
        (fun k => (⟨round2 (priceAt c (1 / 2) (k + 1)), 0⟩ : PayoffPoint))
          |>.map (fun q => q.pnl)).foldl max
        (0 : ℚ) = 0 := by
      apply foldl_max_all_eq
      intro x hx
      obtain ⟨q, hq, rfl⟩ := List.mem_map.mp hx
      exact hmem0 q hq
    show (if _ ∧ (0:ℚ) < _ then _ else _) = _
    rw [if_neg]
    · exact congrArg some (congrArg MaxR.num hmax)
    · intro hcontra
      rw [hmax] at hcontra
      exact lt_irrefl 0 hcontra.2
  · unfold calculateMaxLoss
    rw [emptyCurve_cons h2]
    simp only [Option.some_bind]
    have hmin : ((List.range 100).map
        (fun k => (⟨round2 (priceAt c (1 / 2) (k + 1)), 0⟩ : PayoffPoint))
          |>.map (fun q => q.pnl)).foldl min
        (0 : ℚ) = 0 := by
      apply foldl_min_all_eq
      intro x hx
      obtain ⟨q, hq, rfl⟩ := List.mem_map.mp hx
      exact hmem0 q hq
    show (if _ ∧ _ < (0:ℚ) then _ else _) = _
    rw [if_neg]
    · exact congrArg some (congrArg MaxR.num hmin)
    · intro hcontra
      rw [hmin] at hcontra
      exact lt_irrefl 0 hcontra.2
  · unfold calculateBreakevens
    rw [emptyCurve h3]
    simp only [Option.map_some']
    congr 1

/-- C10 witness at current price 100. -/
theorem claim10_witness :
    (0 : ℚ) < 100 ∧ calculateMaxProfit [] 100 = some (MaxR.num 0) ∧
      calculateMaxLoss [] 100 = some (MaxR.num 0) ∧
      calculateBreakevens [] 100 = some [] :=
  ⟨by norm_num, claim10_empty_position 100 (by norm_num)⟩

/-! ### C3 : order independence -/

/-- C3 counterexample: `calculateMarginRequirement` is not invariant under
permutation of the legs.  A short call plus two candidate long calls at
strikes 105 and 110: the greedy pass pairs the short with whichever long
comes first, giving margin 500 in one order and 1000 in the other. -/
theorem claim3_counterexample :
    List.Perm [legMS, legML1, legML2] [legMS, legML2, legML1] ∧
    (calculateMarginRequirement [legMS, legML1, legML2] 100).margin = 500 ∧
    (calculateMarginRequirement [legMS, legML2, legML1] 100).margin = 1000 := by
  refine ⟨List.Perm.cons _ (List.Perm.swap legML2 legML1 []), ?_, ?_⟩ <;>
    · simp [calculateMarginRequirement, spreadPass, spreadStep, nakedStep,
        longStep, matchesB, initSt, legMS, legML1, legML2, spxI,
        List.filter_cons, List.find?_cons, round2]
      norm_num

/-- C3 amended: the payoff-side engine functions — total payoff, curve,
breakevens, max profit and max loss — are invariant under permutation of the
leg list (they depend on the legs only through the summed payoff), while
`calculateMarginRequirement` is order-sensitive (see the counterexample). -/
theorem claim3_amended (l₁ l₂ : List OptionLeg) (h : l₁.Perm l₂) (p c r : ℚ) :
    calculateTotalPayoff l₁ p = calculateTotalPayoff l₂ p ∧
    generatePayoffCurve l₁ c r = generatePayoffCurve l₂ c r ∧
    calculateBreakevens l₁ c = calculateBreakevens l₂ c ∧
    calculateMaxProfit l₁ c = calculateMaxProfit l₂ c ∧
    calculateMaxLoss l₁ c = calculateMaxLoss l₂ c := by
  have ht : ∀ q, calculateTotalPayoff l₁ q = calculateTotalPayoff l₂ q :=
    fun q => calculateTotalPayoff_perm h q
  refine ⟨ht p, generatePayoffCurve_congr ht c r, ?_, ?_, ?_⟩
  · unfold calculateBreakevens
    rw [generatePayoffCurve_congr ht]
  · unfold calculateMaxProfit
    rw [generatePayoffCurve_congr ht]
  · unfold calculateMaxLoss
    rw [generatePayoffCurve_congr ht]

/-- C3 amended witness: swapping two legs leaves the payoff functions
unchanged. -/
theorem claim3_witness :
    List.Perm [legML1, legML2] [legML2, legML1] ∧
      calculateTotalPayoff [legML1, legML2] 100 =
        calculateTotalPayoff [legML2, legML1] 100 ∧
      calculateBreakevens [legML1, legML2] 100 =
        calculateBreakevens [legML2, legML1] 100 :=
  ⟨List.Perm.swap legML2 legML1 [],
    (claim3_amended _ _ (List.Perm.swap legML2 legML1 []) 100 100 (3 / 20)).1,
    (claim3_amended _ _ (List.Perm.swap legML2 legML1 []) 100 100 (3 / 20)).2.2.1⟩

/-! ### C6 : breakeven scan -/

/-- The claim's description of one adjacent pair: a breakeven is appended
exactly when pnl goes from strictly negative to ≥ 0 or from ≥ 0 to strictly
negative, and it is the linear interpolation rounded to cents. -/
def crossingAt (p0 p1 : PayoffPoint) : Option ℚ :=
  if (p0.pnl < 0 ∧ 0 ≤ p1.pnl) ∨ (0 ≤ p0.pnl ∧ p1.pnl < 0) then
    some (round2 (p0.price +
      |p0.pnl| / (|p0.pnl| + |p1.pnl|) * (p1.price - p0.price)))
  else none

lemma scanBE_eq_filterMap :
    ∀ pts : List PayoffPoint,
      scanBE pts = (pts.zip pts.tail).filterMap (fun q => crossingAt q.1 q.2) := by
  intro pts
  induction pts with
  | nil => rfl
  | cons p0 t ih =>
    cases t with
    | nil => rfl
    | cons p1 rest =>
      show scanBE (p0 :: p1 :: rest) =
        ((p0, p1) :: (p1 :: rest).zip rest).filterMap
          (fun q => crossingAt q.1 q.2)
      rw [List.filterMap_cons]
      by_cases hcr : (p0.pnl < 0 ∧ 0 ≤ p1.pnl) ∨ (0 ≤ p0.pnl ∧ p1.pnl < 0)
      · simp only [scanBE, if_pos hcr, crossingAt]
        rw [ih]
        rfl
      · simp only [scanBE, if_neg hcr, crossingAt]
        rw [ih]
        rfl

lemma scanBE_sorted :
    ∀ pts : List PayoffPoint,
      List.Chain' (fun a b => a.price ≤ b.price) pts →
      (∀ p ∈ pts, round2 p.price = p.price) →
      List.Chain' (· ≤ ·) (scanBE pts) ∧
        ∀ x ∈ scanBE pts, ∀ h ∈ pts.head?, h.price ≤ x := by
  intro pts
  induction pts with
  | nil => intro _ _; exact ⟨List.chain'_nil, by intro x hx; simp [scanBE] at hx⟩
  | cons p0 t ih =>
    intro hchain hfix
    cases t with
    | nil =>
      refine ⟨?_, ?_⟩ <;> simp [scanBE]
    | cons p1 rest =>
      obtain ⟨h01, hchain'⟩ := List.chain'_cons.mp hchain
      have hfix' : ∀ p ∈ p1 :: rest, round2 p.price = p.price :=
        fun p hp => hfix p (List.mem_cons_of_mem _ hp)
      obtain ⟨ihc, ihb⟩ := ih hchain' hfix'
      have hf0 : round2 p0.price = p0.price := hfix p0 (List.mem_cons_self _ _)
      have hf1 : round2 p1.price = p1.price :=
        hfix p1 (List.mem_cons_of_mem _ (List.mem_cons_self _ _))
      by_cases hcr : (p0.pnl < 0 ∧ 0 ≤ p1.pnl) ∨ (0 ≤ p0.pnl ∧ p1.pnl < 0)
      · have expand : scanBE (p0 :: p1 :: rest) =
            round2 (p0.price +
              |p0.pnl| / (|p0.pnl| + |p1.pnl|) * (p1.price - p0.price)) ::
              scanBE (p1 :: rest) := by
          simp only [scanBE, if_pos hcr]
        have hden : 0 < |p0.pnl| + |p1.pnl| := by
          rcases hcr with ⟨h1, _⟩ | ⟨_, h2⟩
          · have := abs_pos.mpr (ne_of_lt h1)
            linarith [abs_nonneg p1.pnl]
          · have := abs_pos.mpr (ne_of_lt h2)
            linarith [abs_nonneg p0.pnl]
        have hr0 : 0 ≤ |p0.pnl| / (|p0.pnl| + |p1.pnl|) :=
          div_nonneg (abs_nonneg _) hden.le
        have hr1 : |p0.pnl| / (|p0.pnl| + |p1.pnl|) ≤ 1 :=
          (div_le_one hden).mpr (by linarith [abs_nonneg p1.pnl])
        have hδ : 0 ≤ p1.price - p0.price := by linarith
        have hraw0 : p0.price ≤ p0.price +
            |p0.pnl| / (|p0.pnl| + |p1.pnl|) * (p1.price - p0.price) := by
          nlinarith
        have hraw1 : p0.price +
            |p0.pnl| / (|p0.pnl| + |p1.pnl|) * (p1.price - p0.price) ≤
              p1.price := by
          nlinarith
        have hb0 : p0.price ≤ round2 (p0.price +
            |p0.pnl| / (|p0.pnl| + |p1.pnl|) * (p1.price - p0.price)) := by
          have := round2_mono hraw0
          rwa [hf0] at this
        have hb1 : round2 (p0.price +
            |p0.pnl| / (|p0.pnl| + |p1.pnl|) * (p1.price - p0.price)) ≤
              p1.price := by
          have := round2_mono hraw1
          rwa [hf1] at this
        constructor
        · rw [expand]
          apply List.chain'_cons'.mpr
          refine ⟨?_, ihc⟩
          intro y hy
          have hy' : y ∈ scanBE (p1 :: rest) := List.mem_of_mem_head? hy
          have := ihb y hy' p1 rfl
          linarith
        · intro x hx h hh
          simp only [List.head?_cons, Option.mem_def, Option.some_inj] at hh
          subst hh
          rw [expand] at hx
          rcases List.mem_cons.mp hx with rfl | hx'
          · exact hb0
          · have := ihb x hx' p1 rfl
            linarith
      · have expand : scanBE (p0 :: p1 :: rest) = scanBE (p1 :: rest) := by
          simp only [scanBE, if_neg hcr]
        constructor
        · rw [expand]; exact ihc
        · intro x hx h hh
          simp only [List.head?_cons, Option.mem_def, Option.some_inj] at hh
          subst hh
          rw [expand] at hx
          have := ihb x hx p1 rfl
          linarith

lemma closedCurve_chain_le (legs : List OptionLeg) {c r : ℚ} (h : 0 < c * r) :
    List.Chain' (fun a b => a.price ≤ b.price) (closedCurve legs c r) := by
  unfold closedCurve
  rw [List.chain'_map, (by rfl : (101 : ℕ) = 100 + 1), List.chain'_range_succ]
  intro m _
  show round2 (priceAt c r m) ≤ round2 (priceAt c r (m + 1))
  apply round2_mono
  have : priceAt c r m + c * r / 50 = priceAt c r (m + 1) := by
    unfold priceAt; push_cast; ring
  linarith

lemma closedCurve_fix (legs : List OptionLeg) (c r : ℚ) :
    ∀ p ∈ closedCurve legs c r, round2 p.price = p.price := by
  intro p hp
  obtain ⟨k, _, rfl⟩ := List.mem_map.mp hp
  exact round2_round2 _

/-- C6: for every leg list and positive current price, `calculateBreakevens`
is exactly the left-to-right adjacent-pair scan of the ±30% curve — one
interpolated, cent-rounded value per strict sign change (none when both
neighbours are exactly 0) — and the resulting list is ascending. -/
theorem claim6_breakeven_scan (legs : List OptionLeg) (c : ℚ) (hc : 0 < c) :
    calculateBreakevens legs c =
      some (((closedCurve legs c (3 / 10)).zip
        (closedCurve legs c (3 / 10)).tail).filterMap
          (fun q => crossingAt q.1 q.2)) ∧
    ∀ bs, calculateBreakevens legs c = some bs → List.Chain' (· ≤ ·) bs := by
  have hcr : 0 < c * (3 / 10) := by linarith
  have hcurve := generatePayoffCurve_closed legs hcr
  have heq : calculateBreakevens legs c =
      some (scanBE (closedCurve legs c (3 / 10))) := by
    unfold calculateBreakevens
    rw [hcurve]
    rfl
  constructor
  · rw [heq, scanBE_eq_filterMap]
  · intro bs hbs
    rw [heq, Option.some_inj] at hbs
    subst hbs
    exact (scanBE_sorted _ (closedCurve_chain_le legs hcr)
      (closedCurve_fix legs c (3 / 10))).1

/-- C6 witness: a single long call, strike 100, premium 5, current price
100. -/
theorem claim6_witness :
    (0 : ℚ) < 100 ∧
      calculateBreakevens [legLC100] 100 =
        some (((closedCurve [legLC100] 100 (3 / 10)).zip
          (closedCurve [legLC100] 100 (3 / 10)).tail).filterMap
            (fun q => crossingAt q.1 q.2)) :=
  ⟨by norm_num, (claim6_breakeven_scan [legLC100] 100 (by norm_num)).1⟩

/-! ### C7 : margin classification -/

lemma spreadFold_inv (longs : List OptionLeg) :
    ∀ (shorts : List OptionLeg) (st : MarginSt),
      ∃ newIds : List String,
        (shorts.foldl (spreadStep longs) st).pS = newIds ++ st.pS ∧
        (shorts.foldl (spreadStep longs) st).marginType =
          (if newIds = [] then st.marginType else MarginType.spread) := by
  intro shorts
  induction shorts with
  | nil => intro st; exact ⟨[], rfl, rfl⟩
  | cons s ss ih =>
    intro st
    rw [List.foldl_cons]
    by_cases hc : s.id ∈ st.pS
    · rw [show spreadStep longs st s = st from by simp [spreadStep, hc]]
      exact ih st
    · rcases hfind : longs.find? (matchesB st.pL s) with _ | m
      · rw [show spreadStep longs st s = st from by simp [spreadStep, hc, hfind]]
        exact ih st
      · have hpS : (spreadStep longs st s).pS = s.id :: st.pS := by
          simp [spreadStep, hc, hfind]
        have hmt : (spreadStep longs st s).marginType = MarginType.spread := by
          simp [spreadStep, hc, hfind]
        obtain ⟨ids, h1, h2⟩ := ih (spreadStep longs st s)
        refine ⟨ids ++ [s.id], ?_, ?_⟩
        · rw [h1, hpS]
          simp
        · rw [h2, hmt]
          cases ids <;> simp

lemma nakedFold_pS (c : ℚ) :
    ∀ (shorts : List OptionLeg) (st : MarginSt),
      (shorts.foldl (nakedStep c) st).pS = st.pS := by
  intro shorts
  induction shorts with
  | nil => intro st; rfl
  | cons s ss ih =>
    intro st
    rw [List.foldl_cons]
    by_cases hc : s.id ∈ st.pS
    · rw [show nakedStep c st s = st from by simp [nakedStep, hc]]
      exact ih st
    · rw [ih _]
      simp [nakedStep, hc]

lemma nakedFold_type (c : ℚ) :
    ∀ (shorts : List OptionLeg) (st : MarginSt),
      (shorts.foldl (nakedStep c) st).marginType =
        (if shorts.any (fun s => !st.pS.contains s.id) then MarginType.naked
         else st.marginType) := by
  intro shorts
  induction shorts with
  | nil => intro st; rfl
  | cons s ss ih =>
    intro st
    rw [List.foldl_cons, List.any_cons]
    by_cases hc : s.id ∈ st.pS
    · rw [show nakedStep c st s = st from by simp [nakedStep, hc]]
      rw [ih st]
      simp [hc]
    · have hpS : (nakedStep c st s).pS = st.pS := by simp [nakedStep, hc]
      have hmt : (nakedStep c st s).marginType = MarginType.naked := by
        simp [nakedStep, hc]
      rw [ih _, hpS, hmt]
      simp [hc]

lemma longFold_keeps :
    ∀ (longs : List OptionLeg) (st : MarginSt),
      (longs.foldl longStep st).marginType = st.marginType ∧
        (longs.foldl longStep st).pS = st.pS := by
  intro longs
  induction longs with
  | nil => intro st; exact ⟨rfl, rfl⟩
  | cons l ls ih =>
    intro st
    rw [List.foldl_cons]
    by_cases hc : l.id ∈ st.pL
    · rw [show longStep st l = st from by simp [longStep, hc]]
      exact ih st
    · obtain ⟨h1, h2⟩ := ih (longStep st l)
      refine ⟨?_, ?_⟩
      · rw [h1]
        simp [longStep, hc]
      · rw [h2]
        simp [longStep, hc]

lemma filter_long_of_no_short {legs : List OptionLeg}
    (h : legs.filter (fun l => l.side = PositionSide.short) = []) :
    legs.filter (fun l => l.side = PositionSide.long) = legs := by
  induction legs with
  | nil => rfl
  | cons l t ih =>
    rw [List.filter_cons] at h ⊢
    rcases hside : l.side with _ | _
    · have hts : t.filter (fun l => l.side = PositionSide.short) = [] := by
        simpa [hside] using h
      simp [hside, ih hts]
    · simp [hside] at h

/-- C7: the classification returned by `calculateMarginRequirement`:
`long-only` exactly when there are no short legs (margin 0 with empty
breakdown for no legs at all, otherwise the summed long premium);
`naked` exactly when some short leg is left unpaired by the spread pass
(overriding `spread`); `spread` exactly when shorts exist and all were
paired; and `cash-secured` never. -/
theorem claim7_margin_classification (legs : List OptionLeg) (c : ℚ) :
    ((calculateMarginRequirement legs c).marginType = MarginType.longOnly ↔
      legs.filter (fun l => l.side = PositionSide.short) = []) ∧
    (legs = [] → calculateMarginRequirement legs c =
      ⟨0, MarginType.longOnly, []⟩) ∧
    (legs.filter (fun l => l.side = PositionSide.short) = [] →
      (calculateMarginRequirement legs c).margin =
        legs.foldl
          (fun s l => s + l.premium * l.quantity * l.instrument.multiplier)
          0) ∧
    ((calculateMarginRequirement legs c).marginType = MarginType.naked ↔
      ∃ s ∈ legs.filter (fun l => l.side = PositionSide.short),
        s.id ∉ pairedShortIds legs) ∧
    ((calculateMarginRequirement legs c).marginType = MarginType.spread ↔
      legs.filter (fun l => l.side = PositionSide.short) ≠ [] ∧
        ∀ s ∈ legs.filter (fun l => l.side = PositionSide.short),
          s.id ∈ pairedShortIds legs) ∧
    (calculateMarginRequirement legs c).marginType ≠ MarginType.cashSecured := by
  by_cases hleg : legs = []
  · subst hleg
    refine ⟨by simp [calculateMarginRequirement], fun _ => rfl, ?_, ?_, ?_, ?_⟩
    · intro _; rfl
    · simp [calculateMarginRequirement, pairedShortIds, spreadPass, initSt]
    · simp [calculateMarginRequirement]
    · simp [calculateMarginRequirement]
  · by_cases hsh : legs.filter (fun l => l.side = PositionSide.short) = []
    · have hres : calculateMarginRequirement legs c =
          ⟨legs.foldl
            (fun s l => s + l.premium * l.quantity * l.instrument.multiplier)
            0, MarginType.longOnly,
            [⟨LineDesc.longAggregate,
              legs.foldl (fun s l =>
                s + l.premium * l.quantity * l.instrument.multiplier) 0⟩]⟩ := by
        unfold calculateMarginRequirement
        rw [if_neg hleg, if_pos hsh, filter_long_of_no_short hsh]
      rw [hres]
      refine ⟨by simp [hsh], fun h => absurd h hleg, fun _ => rfl, ?_, ?_, ?_⟩
      · simp [hsh]
      · simp [hsh]
      · simp
    · have hres : calculateMarginRequirement legs c =
          ⟨round2 ((legs.filter (fun l => l.side = PositionSide.long)).foldl
              longStep
              ((legs.filter (fun l => l.side = PositionSide.short)).foldl
                (nakedStep c) (spreadPass legs))).total,
            ((legs.filter (fun l => l.side = PositionSide.long)).foldl longStep
              ((legs.filter (fun l => l.side = PositionSide.short)).foldl
                (nakedStep c) (spreadPass legs))).marginType,
            ((legs.filter (fun l => l.side = PositionSide.long)).foldl longStep
              ((legs.filter (fun l => l.side = PositionSide.short)).foldl
                (nakedStep c) (spreadPass legs))).breakdown⟩ := by
        unfold calculateMarginRequirement
        rw [if_neg hleg, if_neg hsh]
      have hmt3 := (longFold_keeps (legs.filter (fun l => l.side = PositionSide.long))
        ((legs.filter (fun l => l.side = PositionSide.short)).foldl
          (nakedStep c) (spreadPass legs))).1
      have hmt2 := nakedFold_type c (legs.filter (fun l => l.side = PositionSide.short))
        (spreadPass legs)
      obtain ⟨ids, hpS1, hmt1⟩ := spreadFold_inv
        (legs.filter (fun l => l.side = PositionSide.long))
        (legs.filter (fun l => l.side = PositionSide.short)) initSt
      have hpaired : pairedShortIds legs = ids := by
        unfold pairedShortIds spreadPass
        rw [hpS1]
        simp [initSt]
      have hmt1' : (spreadPass legs).marginType =
          (if ids = [] then MarginType.longOnly else MarginType.spread) := hmt1
      rw [hres]
      simp only []
      by_cases hany : (legs.filter (fun l => l.side = PositionSide.short)).any
          (fun s => !(spreadPass legs).pS.contains s.id)
      · have hmt : ((legs.filter (fun l => l.side = PositionSide.long)).foldl
            longStep
            ((legs.filter (fun l => l.side = PositionSide.short)).foldl
              (nakedStep c) (spreadPass legs))).marginType =
            MarginType.naked := by
          rw [hmt3, hmt2, if_pos hany]
        rw [hmt]
        have hex : ∃ s ∈ legs.filter (fun l => l.side = PositionSide.short),
            s.id ∉ pairedShortIds legs := by
          obtain ⟨s, hs, hns⟩ := List.any_eq_true.mp hany
          refine ⟨s, hs, ?_⟩
          unfold pairedShortIds
          simpa using hns
        refine ⟨by simp [hsh], fun h => absurd h hleg, ?_, ?_, ?_, by simp⟩
        · intro h; exact absurd h hsh
        · simp only [true_iff]
          exact hex
        · constructor
          · intro h; cases h
          · rintro ⟨_, hall⟩
            obtain ⟨s, hs, hcontain⟩ := hex
            exact absurd (hall s hs) hcontain
      · have hmt : ((legs.filter (fun l => l.side = PositionSide.long)).foldl
            longStep
            ((legs.filter (fun l => l.side = PositionSide.short)).foldl
              (nakedStep c) (spreadPass legs))).marginType =
            (spreadPass legs).marginType := by
          rw [hmt3, hmt2, if_neg hany]
        have hall : ∀ s ∈ legs.filter (fun l => l.side = PositionSide.short),
            s.id ∈ pairedShortIds legs := by
          intro s hs
          by_contra hmem
          apply hany
          refine List.any_eq_true.mpr ⟨s, hs, ?_⟩
          unfold pairedShortIds at hmem
          simpa using hmem
        have hids : ids ≠ [] := by
          obtain ⟨s, hs⟩ := List.exists_mem_of_ne_nil _ hsh
          have := hall s hs
          rw [hpaired] at this
          intro hnil
          rw [hnil] at this
          exact List.not_mem_nil _ this
        have hspread : (spreadPass legs).marginType = MarginType.spread := by
          rw [hmt1', if_neg hids]
        rw [hmt, hspread]
        refine ⟨by simp [hsh], fun h => absurd h hleg, ?_, ?_, ?_, by simp⟩
        · intro h; exact absurd h hsh
        · constructor
          · intro h; cases h
          · rintro ⟨s, hs, hns⟩
            exact absurd (hall s hs) hns
        · simp only [true_iff]
          exact ⟨hsh, hall⟩

/-- C7 witness: one naked short call is classified `naked`. -/
theorem claim7_witness :
    ((calculateMarginRequirement [legSC100] 100).marginType =
        MarginType.longOnly ↔
      [legSC100].filter (fun l => l.side = PositionSide.short) = []) ∧
    (calculateMarginRequirement [legSC100] 100).marginType ≠
      MarginType.cashSecured :=
  ⟨(claim7_margin_classification [legSC100] 100).1,
    (claim7_margin_classification [legSC100] 100).2.2.2.2.2⟩

/-! ### C8 : greedy spread pairing -/

/-- The claim's eligibility predicate for pairing a long leg `l` with a short
leg `s` given the already-claimed long ids: not yet claimed, same option
type, same instrument family, same quantity. -/
def eligible (claimed : List String) (s l : OptionLeg) : Prop :=
  l.id ∉ claimed ∧ l.optionType = s.optionType ∧
    l.instrument.family = s.instrument.family ∧ l.quantity = s.quantity

lemma matchesB_iff_eligible {claimed : List String} {s l : OptionLeg} :
    matchesB claimed s l = true ↔ eligible claimed s l := by
  simp [matchesB, eligible, and_assoc]

/-- The pairing produced by the spread pass, as a standalone recursion with an
explicit claimed-id list. -/
def greedyPairs (longs : List OptionLeg) :
    List OptionLeg → List String → List (OptionLeg × OptionLeg)
  | [], _ => []
  | s :: ss, claimed =>
    match longs.find? (matchesB claimed s) with
    | some m => (s, m) :: greedyPairs longs ss (m.id :: claimed)
    | none => greedyPairs longs ss claimed

/-- The claim's description of the greedy pass: each short leg takes the
first eligible long leg in input order (everything before it in the long list
is ineligible), claims its id, and shorts with no eligible long are skipped;
no other pairing strategy is allowed. -/
inductive GreedyPairing (longs : List OptionLeg) :
    List OptionLeg → List String → List (OptionLeg × OptionLeg) → Prop where
  | nil (claimed) : GreedyPairing longs [] claimed []
  | found (s : OptionLeg) (ss : List OptionLeg) (claimed : List String)
      (m : OptionLeg) (pre post : List OptionLeg)
      (ps : List (OptionLeg × OptionLeg)) :
      longs = pre ++ m :: post →
      eligible claimed s m →
      (∀ l ∈ pre, ¬ eligible claimed s l) →
      GreedyPairing longs ss (m.id :: claimed) ps →
      GreedyPairing longs (s :: ss) claimed ((s, m) :: ps)
  | skip (s : OptionLeg) (ss : List OptionLeg) (claimed : List String)
      (ps : List (OptionLeg × OptionLeg)) :
      (∀ l ∈ longs, ¬ eligible claimed s l) →
      GreedyPairing longs ss claimed ps →
      GreedyPairing longs (s :: ss) claimed ps

lemma find?_first {α : Type} (p : α → Bool) :
    ∀ (l : List α) (b : α), l.find? p = some b →
      ∃ l1 l2, l = l1 ++ b :: l2 ∧ p b = true ∧ ∀ x ∈ l1, ¬ p x = true := by
  intro l
  induction l with
  | nil => intro b h; cases h
  | cons a t ih =>
    intro b h
    rcases hpa : p a with _ | _
    · rw [List.find?_cons_of_neg _ (by simp [hpa])] at h
      obtain ⟨l1, l2, hdec, hpb, hpre⟩ := ih b h
      exact ⟨a :: l1, l2, by rw [hdec]; rfl, hpb, by
        intro x hx
        rcases List.mem_cons.mp hx with rfl | hx'
        · simp [hpa]
        · exact hpre x hx'⟩
    · rw [List.find?_cons_of_pos _ hpa] at h
      cases h
      exact ⟨[], t, rfl, hpa, by intro x hx; cases hx⟩

lemma greedyPairs_sound (longs : List OptionLeg) :
    ∀ (shorts : List OptionLeg) (claimed : List String),
      GreedyPairing longs shorts claimed (greedyPairs longs shorts claimed) := by
  intro shorts
  induction shorts with
  | nil => intro claimed; exact GreedyPairing.nil claimed
  | cons s ss ih =>
    intro claimed
    rcases hfind : longs.find? (matchesB claimed s) with _ | m
    · rw [show greedyPairs longs (s :: ss) claimed =
          greedyPairs longs ss claimed from by
        simp [greedyPairs, hfind]]
      refine GreedyPairing.skip s ss claimed _ ?_ (ih claimed)
      intro l hl hel
      have := List.find?_eq_none.mp hfind l hl
      exact this (matchesB_iff_eligible.mpr hel)
    · rw [show greedyPairs longs (s :: ss) claimed =
          (s, m) :: greedyPairs longs ss (m.id :: claimed) from by
        simp [greedyPairs, hfind]]
      obtain ⟨pre, post, hdec, hpb, hpre⟩ := find?_first _ longs m hfind
      refine GreedyPairing.found s ss claimed m pre post _ hdec
        (matchesB_iff_eligible.mp hpb) ?_ (ih (m.id :: claimed))
      intro l hl hel
      exact hpre l hl (matchesB_iff_eligible.mpr hel)

lemma greedyPairs_nodup (longs : List OptionLeg) :
    ∀ (shorts : List OptionLeg) (claimed : List String),
      ((greedyPairs longs shorts claimed).map (fun q => q.2.id)).Nodup ∧
        ∀ q ∈ greedyPairs longs shorts claimed, q.2.id ∉ claimed := by
  intro shorts
  induction shorts with
  | nil => intro claimed; exact ⟨List.nodup_nil, by intro q hq; cases hq⟩
  | cons s ss ih =>
    intro claimed
    rcases hfind : longs.find? (matchesB claimed s) with _ | m
    · rw [show greedyPairs longs (s :: ss) claimed =
          greedyPairs longs ss claimed from by
        simp [greedyPairs, hfind]]
      exact ih claimed
    · rw [show greedyPairs longs (s :: ss) claimed =
          (s, m) :: greedyPairs longs ss (m.id :: claimed) from by
        simp [greedyPairs, hfind]]
      obtain ⟨hnd, hcl⟩ := ih (m.id :: claimed)
      have hm : m.id ∉ claimed :=
        (matchesB_iff_eligible.mp (List.find?_some hfind)).1
      refine ⟨?_, ?_⟩
      · rw [List.map_cons, List.nodup_cons]
        refine ⟨?_, hnd⟩
        intro hmem
        obtain ⟨q, hq, hqid⟩ := List.mem_map.mp hmem
        exact (hcl q hq) (hqid ▸ List.mem_cons_self _ _)
      · intro q hq
        rcases List.mem_cons.mp hq with rfl | hq'
        · exact hm
        · exact fun hc => (hcl q hq') (List.mem_cons_of_mem _ hc)

/-- One spread breakdown line for a matched pair. -/
def pairLine (q : OptionLeg × OptionLeg) : BreakLine :=
  ⟨LineDesc.spreadLine q.1.optionType q.1.strike q.2.strike,
    |q.1.strike - q.2.strike| * q.1.quantity * q.1.instrument.multiplier⟩

lemma spreadFold_greedy (longs : List OptionLeg) :
    ∀ (shorts : List OptionLeg) (st : MarginSt),
      (∀ s ∈ shorts, s.id ∉ st.pS) →
      (shorts.map (fun l => l.id)).Nodup →
      (shorts.foldl (spreadStep longs) st).breakdown =
        st.breakdown ++ (greedyPairs longs shorts st.pL).map pairLine ∧
      (shorts.foldl (spreadStep longs) st).total =
        st.total + ((greedyPairs longs shorts st.pL).map
          (fun q => (pairLine q).amount)).sum := by
  intro shorts
  induction shorts with
  | nil => intro st _ _; simp [greedyPairs]
  | cons s ss ih =>
    intro st hdisj hnd
    have hc : s.id ∉ st.pS := hdisj s (List.mem_cons_self _ _)
    have hnd' : (ss.map (fun l => l.id)).Nodup := (List.nodup_cons.mp hnd).2
    have hsid : s.id ∉ ss.map (fun l => l.id) := (List.nodup_cons.mp hnd).1
    rw [List.foldl_cons]
    rcases hfind : longs.find? (matchesB st.pL s) with _ | m
    · rw [show spreadStep longs st s = st from by simp [spreadStep, hc, hfind]]
      rw [show greedyPairs longs (s :: ss) st.pL =
          greedyPairs longs ss st.pL from by simp [greedyPairs, hfind]]
      exact ih st (fun x hx => hdisj x (List.mem_cons_of_mem _ hx)) hnd'
    · have hpS : (spreadStep longs st s).pS = s.id :: st.pS := by
        simp [spreadStep, hc, hfind]
      have hpL : (spreadStep longs st s).pL = m.id :: st.pL := by
        simp [spreadStep, hc, hfind]
      have hbd : (spreadStep longs st s).breakdown =
          st.breakdown ++ [pairLine (s, m)] := by
        simp [spreadStep, hc, hfind, pairLine]
      have htot : (spreadStep longs st s).total =
          st.total + (pairLine (s, m)).amount := by
        simp [spreadStep, hc, hfind, pairLine]
      have hdisj' : ∀ x ∈ ss, x.id ∉ (spreadStep longs st s).pS := by
        intro x hx
        rw [hpS]
        intro hmem
        rcases List.mem_cons.mp hmem with hxe | hmem'
        · exact hsid (hxe ▸ List.mem_map_of_mem (fun l => l.id) hx)
        · exact hdisj x (List.mem_cons_of_mem _ hx) hmem'
      obtain ⟨hbd', htot'⟩ := ih (spreadStep longs st s) hdisj' hnd'
      rw [show greedyPairs longs (s :: ss) st.pL =
          (s, m) :: greedyPairs longs ss (m.id :: st.pL) from by
        simp [greedyPairs, hfind]]
      constructor
      · rw [hbd', hbd, hpL, List.map_cons, List.append_assoc]
        rfl
      · rw [htot', htot, hpL, List.map_cons, List.sum_cons]
        ring

lemma breakdown_take_of_append {bd l : List BreakLine}
    (h : ∃ ext, l = bd ++ ext) : l.take bd.length = bd := by
  obtain ⟨ext, rfl⟩ := h
  exact List.take_left _ _

lemma foldl_breakdown_ext (f : MarginSt → OptionLeg → MarginSt)
    (hf : ∀ st x, ∃ ext, (f st x).breakdown = st.breakdown ++ ext) :
    ∀ (l : List OptionLeg) (st : MarginSt),
      ∃ ext, (l.foldl f st).breakdown = st.breakdown ++ ext := by
  intro l
  induction l with
  | nil => intro st; exact ⟨[], by simp⟩
  | cons x xs ih =>
    intro st
    rw [List.foldl_cons]
    obtain ⟨e1, he1⟩ := hf st x
    obtain ⟨e2, he2⟩ := ih (f st x)
    exact ⟨e1 ++ e2, by rw [he2, he1, List.append_assoc]⟩

lemma nakedStep_ext (c : ℚ) (st : MarginSt) (s : OptionLeg) :
    ∃ ext, (nakedStep c st s).breakdown = st.breakdown ++ ext := by
  by_cases hc : s.id ∈ st.pS
  · exact ⟨[], by simp [nakedStep, hc]⟩
  · exact ⟨(nakedStep c st s).breakdown.drop st.breakdown.length,
      by simp [nakedStep, hc]⟩

lemma longStep_ext (st : MarginSt) (l : OptionLeg) :
    ∃ ext, (longStep st l).breakdown = st.breakdown ++ ext := by
  by_cases hc : l.id ∈ st.pL
  · exact ⟨[], by simp [longStep, hc]⟩
  · exact ⟨(longStep st l).breakdown.drop st.breakdown.length,
      by simp [longStep, hc]⟩

lemma nakedFold_breakdown (c : ℚ) (shorts : List OptionLeg) (st : MarginSt) :
    (shorts.foldl (nakedStep c) st).breakdown.take st.breakdown.length =
      st.breakdown :=
  breakdown_take_of_append
    (foldl_breakdown_ext _ (nakedStep_ext c) shorts st)

lemma longFold_breakdown (longs : List OptionLeg) (st : MarginSt) :
    (longs.foldl longStep st).breakdown.take st.breakdown.length =
      st.breakdown :=
  breakdown_take_of_append
    (foldl_breakdown_ext _ longStep_ext longs st)

/-- C8: under unique leg ids, the spread pass realizes exactly the greedy
first-eligible pairing: its breakdown is one line per matched pair with
amount |shortStrike − longStrike| × quantity × multiplier, its accumulated
total is the sum of those amounts, each long leg is claimed at most once, the
pairing satisfies the first-unclaimed-match discipline (`GreedyPairing`), and
these lines open the breakdown of the full margin result. -/
theorem claim8_greedy_pairing (legs : List OptionLeg) (c : ℚ)
    (hids : (legs.map (fun l => l.id)).Nodup) :
    GreedyPairing (legs.filter (fun l => l.side = PositionSide.long))
      (legs.filter (fun l => l.side = PositionSide.short)) []
      (greedyPairs (legs.filter (fun l => l.side = PositionSide.long))
        (legs.filter (fun l => l.side = PositionSide.short)) []) ∧
    ((greedyPairs (legs.filter (fun l => l.side = PositionSide.long))
        (legs.filter (fun l => l.side = PositionSide.short)) []).map
      (fun q => q.2.id)).Nodup ∧
    (spreadPass legs).breakdown =
      (greedyPairs (legs.filter (fun l => l.side = PositionSide.long))
        (legs.filter (fun l => l.side = PositionSide.short)) []).map pairLine ∧
    (spreadPass legs).total =
      ((greedyPairs (legs.filter (fun l => l.side = PositionSide.long))
        (legs.filter (fun l => l.side = PositionSide.short)) []).map
          (fun q => (pairLine q).amount)).sum ∧
    (legs ≠ [] → legs.filter (fun l => l.side = PositionSide.short) ≠ [] →
      (calculateMarginRequirement legs c).breakdown.take
        ((spreadPass legs).breakdown).length = (spreadPass legs).breakdown) := by
  have hshort_nd : ((legs.filter
      (fun l => l.side = PositionSide.short)).map (fun l => l.id)).Nodup :=
    ((legs.filter_sublist).map (fun l => l.id)).nodup hids
  have hfold := spreadFold_greedy
    (legs.filter (fun l => l.side = PositionSide.long))
    (legs.filter (fun l => l.side = PositionSide.short)) initSt
    (by intro s _ h; cases h) hshort_nd
  refine ⟨greedyPairs_sound _ _ _, (greedyPairs_nodup _ _ _).1, ?_, ?_, ?_⟩
  · rw [show (spreadPass legs).breakdown = _ from hfold.1]
    rfl
  · rw [show (spreadPass legs).total = _ from hfold.2]
    show (0 : ℚ) + _ = _
    rw [zero_add]
    rfl
  · intro hleg hsh
    unfold calculateMarginRequirement
    rw [if_neg hleg, if_neg hsh]
    have h2 := nakedFold_breakdown c
      (legs.filter (fun l => l.side = PositionSide.short)) (spreadPass legs)
    have h3 := longFold_breakdown
      (legs.filter (fun l => l.side = PositionSide.long))
      ((legs.filter (fun l => l.side = PositionSide.short)).foldl
        (nakedStep c) (spreadPass legs))
    show ((legs.filter (fun l => l.side = PositionSide.long)).foldl longStep
      ((legs.filter (fun l => l.side = PositionSide.short)).foldl
        (nakedStep c) (spreadPass legs))).breakdown.take
          ((spreadPass legs).breakdown).length = (spreadPass legs).breakdown
    have hlen : ((spreadPass legs).breakdown).length ≤
        (((legs.filter (fun l => l.side = PositionSide.short)).foldl
          (nakedStep c) (spreadPass legs)).breakdown).length := by
      have := congrArg List.length h2
      rw [List.length_take] at this
      omega
    calc ((legs.filter (fun l => l.side = PositionSide.long)).foldl longStep
            ((legs.filter (fun l => l.side = PositionSide.short)).foldl
              (nakedStep c) (spreadPass legs))).breakdown.take
                ((spreadPass legs).breakdown).length
        = (((legs.filter (fun l => l.side = PositionSide.long)).foldl longStep
            ((legs.filter (fun l => l.side = PositionSide.short)).foldl
              (nakedStep c) (spreadPass legs))).breakdown.take
                ((((legs.filter (fun l => l.side = PositionSide.short)).foldl
                  (nakedStep c) (spreadPass legs)).breakdown).length)).take
                    ((spreadPass legs).breakdown).length := by
          rw [List.take_take]
          congr 1
          omega
      _ = (((legs.filter (fun l => l.side = PositionSide.short)).foldl
            (nakedStep c) (spreadPass legs)).breakdown).take
              ((spreadPass legs).breakdown).length := by rw [h3]
      _ = (spreadPass legs).breakdown := h2

/-- C8 witness: short call 100 with long calls 105 and 110 — the pass pairs
the short with the first long (strike 105). -/
theorem claim8_witness :
    ([legMS, legML1, legML2].map (fun l => l.id)).Nodup ∧
      (spreadPass [legMS, legML1, legML2]).breakdown =
        (greedyPairs
          ([legMS, legML1, legML2].filter
            (fun l => l.side = PositionSide.long))
          ([legMS, legML1, legML2].filter
            (fun l => l.side = PositionSide.short)) []).map pairLine :=
  ⟨by decide, (claim8_greedy_pairing [legMS, legML1, legML2] 100
    (by decide)).2.2.1⟩

/-! ### C9 : unbounded-tail classification of single calls -/

/-- The general curve split into head and tail. -/
lemma curve_cons {legs : List OptionLeg} {c r : ℚ} (h : 0 < c * r) :
    generatePayoffCurve legs c r =
      some (mkPoint legs (priceAt c r 0) ::
        (List.range 100).map (fun k => mkPoint legs (priceAt c r (k + 1)))) := by
  rw [generatePayoffCurve_closed legs h]
  congr 1

lemma priceAt_mono {c r : ℚ} (h : 0 ≤ c * r) {j k : ℕ} (hjk : j ≤ k) :
    priceAt c r j ≤ priceAt c r k := by
  unfold priceAt
  have hj : (j : ℚ) ≤ (k : ℚ) := by exact_mod_cast hjk
  nlinarith

lemma priceAt_100_half (c : ℚ) : priceAt c (1 / 2) 100 = 3 / 2 * c := by
  unfold priceAt
  push_cast
  ring

lemma priceAt_succ_half (c : ℚ) (k : ℕ) :
    priceAt c (1 / 2) (k + 1) = priceAt c (1 / 2) k + c / 100 := by
  unfold priceAt
  push_cast
  ring

lemma total_single (leg : OptionLeg) (p : ℚ) :
    calculateTotalPayoff [leg] p = calculateLegPayoff leg p := by
  simp [calculateTotalPayoff]

lemma shortCall_payoff {leg : OptionLeg}
    (hside : leg.side = PositionSide.short)
    (htype : leg.optionType = OptionType.call) (p : ℚ) :
    calculateLegPayoff leg p =
      (leg.premium - max 0 (p - leg.strike)) * leg.quantity *
        leg.instrument.multiplier := by
  simp [calculateLegPayoff, hside, htype]

lemma longCall_payoff {leg : OptionLeg}
    (hside : leg.side = PositionSide.long)
    (htype : leg.optionType = OptionType.call) (p : ℚ) :
    calculateLegPayoff leg p =
      (max 0 (p - leg.strike) - leg.premium) * leg.quantity *
        leg.instrument.multiplier := by
  simp [calculateLegPayoff, hside, htype]

lemma shortCall_antitone {leg : OptionLeg}
    (hside : leg.side = PositionSide.short)
    (htype : leg.optionType = OptionType.call)
    (hq : 0 < leg.quantity) (hm : 0 < leg.instrument.multiplier)
    {p p' : ℚ} (hpp : p ≤ p') :
    calculateLegPayoff leg p' ≤ calculateLegPayoff leg p := by
  rw [shortCall_payoff hside htype, shortCall_payoff hside htype]
  have hmax : max 0 (p - leg.strike) ≤ max 0 (p' - leg.strike) :=
    max_le_max le_rfl (by linarith)
  have hqm : 0 < leg.quantity * leg.instrument.multiplier := mul_pos hq hm
  nlinarith

lemma longCall_monotone {leg : OptionLeg}
    (hside : leg.side = PositionSide.long)
    (htype : leg.optionType = OptionType.call)
    (hq : 0 < leg.quantity) (hm : 0 < leg.instrument.multiplier)
    {p p' : ℚ} (hpp : p ≤ p') :
    calculateLegPayoff leg p ≤ calculateLegPayoff leg p' := by
  rw [longCall_payoff hside htype, longCall_payoff hside htype]
  have hmax : max 0 (p - leg.strike) ≤ max 0 (p' - leg.strike) :=
    max_le_max le_rfl (by linarith)
  have hqm : 0 < leg.quantity * leg.instrument.multiplier := mul_pos hq hm
  nlinarith

lemma lastFive_curve (legs : List OptionLeg) (c : ℚ) :
    (lastFive (mkPoint legs (priceAt c (1 / 2) 0) ::
      (List.range 100).map
        (fun k => mkPoint legs (priceAt c (1 / 2) (k + 1))))).map
          (fun q => q.pnl) =
      [(mkPoint legs (priceAt c (1 / 2) 96)).pnl,
       (mkPoint legs (priceAt c (1 / 2) 97)).pnl,
       (mkPoint legs (priceAt c (1 / 2) 98)).pnl,
       (mkPoint legs (priceAt c (1 / 2) 99)).pnl,
       (mkPoint legs (priceAt c (1 / 2) 100)).pnl] := by
  unfold lastFive
  rw [show (mkPoint legs (priceAt c (1 / 2) 0) :: (List.range 100).map
      (fun k => mkPoint legs (priceAt c (1 / 2) (k + 1)))).length - 5 = 96
    from by simp]
  rw [(by norm_num : (96 : ℕ) = 95 + 1), List.drop_succ_cons, ← List.map_drop,
    (by decide : (List.range 100).drop 95 = [95, 96, 97, 98, 99])]
  rfl

lemma takeFive_curve (legs : List OptionLeg) (c : ℚ) :
    ((mkPoint legs (priceAt c (1 / 2) 0) ::
      (List.range 100).map
        (fun k => mkPoint legs (priceAt c (1 / 2) (k + 1)))).take 5).map
          (fun q => q.pnl) =
      [(mkPoint legs (priceAt c (1 / 2) 0)).pnl,
       (mkPoint legs (priceAt c (1 / 2) 1)).pnl,
       (mkPoint legs (priceAt c (1 / 2) 2)).pnl,
       (mkPoint legs (priceAt c (1 / 2) 3)).pnl,
       (mkPoint legs (priceAt c (1 / 2) 4)).pnl] := by
  rw [List.take_succ_cons, ← List.map_take,
    (by decide : (List.range 100).take 4 = [0, 1, 2, 3])]
  rfl

/-- C9 amended: for a single short call whose strike sits inside the sampled
±50% window (strike ≤ 1.46 × currentPrice), whose intrinsic value at the top
of the window exceeds the premium by more than half a cent of P&L, and whose
per-step P&L resolution is at least one cent (currentPrice × quantity ×
multiplier ≥ 1), `calculateMaxLoss` returns the sentinel and
`calculateMaxProfit` a finite number; for a single long call whose window-top
value clears the same half-cent rounding threshold, `calculateMaxProfit`
returns the sentinel.  Without the window conditions the original claim fails
(see the counterexample: a far-out-of-the-money strike). -/
theorem claim9_amended (leg legL : OptionLeg) (c : ℚ)
    (hside : leg.side = PositionSide.short)
    (htype : leg.optionType = OptionType.call)
    (hq : 0 < leg.quantity) (hm : 0 < leg.instrument.multiplier)
    (hprem : 0 ≤ leg.premium) (hc : 0 < c)
    (hval : 1 / 200 < (3 / 2 * c - leg.strike - leg.premium) *
      leg.quantity * leg.instrument.multiplier)
    (hK : leg.strike ≤ 146 / 100 * c)
    (hres : 1 ≤ c * leg.quantity * leg.instrument.multiplier)
    (hsideL : legL.side = PositionSide.long)
    (htypeL : legL.optionType = OptionType.call)
    (hqL : 0 < legL.quantity) (hmL : 0 < legL.instrument.multiplier)
    (hpremL : 0 ≤ legL.premium)
    (hvalL : 1 / 200 ≤ (3 / 2 * c - legL.strike - legL.premium) *
      legL.quantity * legL.instrument.multiplier) :
    calculateMaxLoss [leg] c = some MaxR.unlimited ∧
    (calculateMaxProfit [leg] c).map MaxR.isUnlimited = some false ∧
    calculateMaxProfit [legL] c = some MaxR.unlimited := by
  have h2 : 0 < c * (1 / 2) := by linarith
  have hqm : 0 < leg.quantity * leg.instrument.multiplier := mul_pos hq hm
  have hqmL : 0 < legL.quantity * legL.instrument.multiplier :=
    mul_pos hqL hmL
  have hpnl : ∀ k : ℕ, (mkPoint [leg] (priceAt c (1 / 2) k)).pnl =
      round2 (calculateLegPayoff leg (priceAt c (1 / 2) k)) := by
    intro k
    show round2 (calculateTotalPayoff [leg] (priceAt c (1 / 2) k)) = _
    rw [total_single]
  have hpnlL : ∀ k : ℕ, (mkPoint [legL] (priceAt c (1 / 2) k)).pnl =
      round2 (calculateLegPayoff legL (priceAt c (1 / 2) k)) := by
    intro k
    show round2 (calculateTotalPayoff [legL] (priceAt c (1 / 2) k)) = _
    rw [total_single]
  have hanti : ∀ j k : ℕ, j ≤ k →
      round2 (calculateLegPayoff leg (priceAt c (1 / 2) k)) ≤
        round2 (calculateLegPayoff leg (priceAt c (1 / 2) j)) := by
    intro j k hjk
    exact round2_mono (shortCall_antitone hside htype hq hm
      (priceAt_mono h2.le hjk))
  have hmono : ∀ j k : ℕ, j ≤ k →
      round2 (calculateLegPayoff legL (priceAt c (1 / 2) j)) ≤
        round2 (calculateLegPayoff legL (priceAt c (1 / 2) k)) := by
    intro j k hjk
    exact round2_mono (longCall_monotone hsideL htypeL hqL hmL
      (priceAt_mono h2.le hjk))
  have hitm : 0 ≤ 3 / 2 * c - leg.strike := by nlinarith
  have hpayoff100 : calculateLegPayoff leg (priceAt c (1 / 2) 100) <
      -(1 / 200) := by
    rw [priceAt_100_half, shortCall_payoff hside htype,
      max_eq_right hitm]
    nlinarith
  have hmem100 : (mkPoint [leg] (priceAt c (1 / 2) 100)).pnl ∈
      ((List.range 100).map
        (fun k => mkPoint [leg] (priceAt c (1 / 2) (k + 1)))).map
          (fun q => q.pnl) := by
    refine List.mem_map.mpr ⟨mkPoint [leg] (priceAt c (1 / 2) 100), ?_, rfl⟩
    exact List.mem_map.mpr ⟨99, List.mem_range.mpr (by omega), rfl⟩
  refine ⟨?_, ?_, ?_⟩
  · -- maxLoss on the short call is 'unlimited'
    unfold calculateMaxLoss
    rw [curve_cons h2]
    simp only [Option.some_bind]
    show (if _ ∧ _ < (0 : ℚ) then _ else _) = _
    rw [if_pos]
    constructor
    · rw [takeFive_curve]
      simp only [nonincrB, Bool.and_eq_true, decide_eq_true_eq, hpnl]
      exact ⟨hanti 0 1 (by omega), hanti 1 2 (by omega), hanti 2 3 (by omega),
        hanti 3 4 (by omega), trivial⟩
    · have hle := foldl_min_le_mem _
        ((mkPoint [leg] (priceAt c (1 / 2) 0)).pnl) _ hmem100
      have hneg : (mkPoint [leg] (priceAt c (1 / 2) 100)).pnl < 0 := by
        rw [hpnl]
        exact round2_neg_iff.mpr hpayoff100
      exact lt_of_le_of_lt hle hneg
  · -- maxProfit on the short call is a finite number
    unfold calculateMaxProfit
    rw [curve_cons h2]
    simp only [Option.some_bind]
    have hp96 : priceAt c (1 / 2) 96 = 146 / 100 * c := by
      unfold priceAt; push_cast; ring
    have hstep : calculateLegPayoff leg (priceAt c (1 / 2) 97) + 1 / 100 ≤
        calculateLegPayoff leg (priceAt c (1 / 2) 96) := by
      rw [shortCall_payoff hside htype, shortCall_payoff hside htype]
      have h97 : priceAt c (1 / 2) 97 = priceAt c (1 / 2) 96 + c / 100 :=
        priceAt_succ_half c 96
      have hK96 : 0 ≤ priceAt c (1 / 2) 96 - leg.strike := by
        rw [hp96]; linarith
      have hK97 : 0 ≤ priceAt c (1 / 2) 97 - leg.strike := by
        rw [h97]; linarith
      rw [max_eq_right hK96, max_eq_right hK97, h97]
      nlinarith
    have hstrict : round2 (calculateLegPayoff leg (priceAt c (1 / 2) 97)) <
        round2 (calculateLegPayoff leg (priceAt c (1 / 2) 96)) :=
      round2_strict_mono hstep
    have hnle : ¬((mkPoint [leg] (priceAt c (1 / 2) 96)).pnl ≤
        (mkPoint [leg] (priceAt c (1 / 2) 97)).pnl) := by
      rw [hpnl, hpnl]
      exact not_le.mpr hstrict
    have hfalse : ¬(nondecrB
        [(mkPoint [leg] (priceAt c (1 / 2) 96)).pnl,
         (mkPoint [leg] (priceAt c (1 / 2) 97)).pnl,
         (mkPoint [leg] (priceAt c (1 / 2) 98)).pnl,
         (mkPoint [leg] (priceAt c (1 / 2) 99)).pnl,
         (mkPoint [leg] (priceAt c (1 / 2) 100)).pnl] = true) := by
      intro htr
      simp only [nondecrB, Bool.and_eq_true, decide_eq_true_eq] at htr
      exact hnle htr.1
    show Option.map MaxR.isUnlimited (if _ ∧ (0 : ℚ) < _ then _ else _) = _
    rw [if_neg]
    · rfl
    · intro hcontra
      obtain ⟨h1, _⟩ := hcontra
      rw [lastFive_curve] at h1
      exact hfalse h1
  · -- maxProfit on the long call is 'unlimited'
    unfold calculateMaxProfit
    rw [curve_cons h2]
    simp only [Option.some_bind]
    have hitmL : 0 ≤ 3 / 2 * c - legL.strike := by nlinarith
    have hpayL : 1 / 200 ≤ calculateLegPayoff legL (priceAt c (1 / 2) 100) := by
      rw [priceAt_100_half, longCall_payoff hsideL htypeL,
        max_eq_right hitmL]
      nlinarith
    have hmemL : (mkPoint [legL] (priceAt c (1 / 2) 100)).pnl ∈
        ((List.range 100).map
          (fun k => mkPoint [legL] (priceAt c (1 / 2) (k + 1)))).map
            (fun q => q.pnl) := by
      refine List.mem_map.mpr ⟨mkPoint [legL] (priceAt c (1 / 2) 100), ?_, rfl⟩
      exact List.mem_map.mpr ⟨99, List.mem_range.mpr (by omega), rfl⟩
    show (if _ ∧ (0 : ℚ) < _ then _ else _) = _
    rw [if_pos]
    constructor
    · rw [lastFive_curve]
      simp only [nondecrB, Bool.and_eq_true, decide_eq_true_eq, hpnlL]
      exact ⟨hmono 96 97 (by omega), hmono 97 98 (by omega),
        hmono 98 99 (by omega), hmono 99 100 (by omega), trivial⟩
    · have hge := mem_le_foldl_max _
        ((mkPoint [legL] (priceAt c (1 / 2) 0)).pnl) _ hmemL
      have hpos : 0 < (mkPoint [legL] (priceAt c (1 / 2) 100)).pnl := by
        rw [hpnlL]
        exact round2_pos_iff.mpr hpayL
      exact lt_of_lt_of_le hpos hge

lemma round2_int (n : ℤ) : round2 (n : ℚ) = n := by
  have h : ((n : ℚ)) = ((100 * n : ℤ) : ℚ) / 100 := by push_cast; ring
  rw [h, round2_intCast_div]

lemma maxLoss_const {legs : List OptionLeg} {c w : ℚ} (h : 0 < c * (1 / 2))
    (hv : ∀ k : ℕ, k ≤ 100 → (mkPoint legs (priceAt c (1 / 2) k)).pnl = w)
    (hw : ¬(w < 0)) :
    calculateMaxLoss legs c = some (MaxR.num w) := by
  have hmem : ∀ x ∈ ((List.range 100).map
      (fun k => mkPoint legs (priceAt c (1 / 2) (k + 1)))).map
        (fun q => q.pnl), x = w := by
    intro x hx
    obtain ⟨q, hq, rfl⟩ := List.mem_map.mp hx
    obtain ⟨k, hk, rfl⟩ := List.mem_map.mp hq
    exact hv (k + 1) (by have := List.mem_range.mp hk; omega)
  have h0 : (mkPoint legs (priceAt c (1 / 2) 0)).pnl = w := hv 0 (by omega)
  have hmin : (((List.range 100).map
      (fun k => mkPoint legs (priceAt c (1 / 2) (k + 1)))).map
        (fun q => q.pnl)).foldl min
      (mkPoint legs (priceAt c (1 / 2) 0)).pnl = w := by
    rw [h0]
    exact foldl_min_all_eq hmem
  unfold calculateMaxLoss
  rw [curve_cons h]
  simp only [Option.some_bind]
  show (if _ ∧ _ < (0 : ℚ) then _ else _) = _
  rw [if_neg]
  · rw [hmin]
  · intro hcontra
    rw [hmin] at hcontra
    exact hw hcontra.2

lemma maxProfit_const {legs : List OptionLeg} {c w : ℚ} (h : 0 < c * (1 / 2))
    (hv : ∀ k : ℕ, k ≤ 100 → (mkPoint legs (priceAt c (1 / 2) k)).pnl = w)
    (hw : 0 < w) :
    calculateMaxProfit legs c = some MaxR.unlimited := by
  have hmem : ∀ x ∈ ((List.range 100).map
      (fun k => mkPoint legs (priceAt c (1 / 2) (k + 1)))).map
        (fun q => q.pnl), x = w := by
    intro x hx
    obtain ⟨q, hq, rfl⟩ := List.mem_map.mp hx
    obtain ⟨k, hk, rfl⟩ := List.mem_map.mp hq
    exact hv (k + 1) (by have := List.mem_range.mp hk; omega)
  have h0 : (mkPoint legs (priceAt c (1 / 2) 0)).pnl = w := hv 0 (by omega)
  have hmax : (((List.range 100).map
      (fun k => mkPoint legs (priceAt c (1 / 2) (k + 1)))).map
        (fun q => q.pnl)).foldl max
      (mkPoint legs (priceAt c (1 / 2) 0)).pnl = w := by
    rw [h0]
    exact foldl_max_all_eq hmem
  unfold calculateMaxProfit
  rw [curve_cons h]
  simp only [Option.some_bind]
  show (if _ ∧ (0 : ℚ) < _ then _ else _) = _
  rw [if_pos]
  constructor
  · rw [lastFive_curve]
    apply @nondecrB_of_const w
    intro x hx
    simp only [List.mem_cons, List.mem_singleton, List.not_mem_nil,
      or_false] at hx
    rcases hx with rfl | rfl | rfl | rfl | rfl
    · exact hv 96 (by omega)
    · exact hv 97 (by omega)
    · exact hv 98 (by omega)
    · exact hv 99 (by omega)
    · exact hv 100 (by omega)
  · rw [hmax]
    exact hw

/-- C9 counterexample: a single short call — satisfying every precondition of
the claim (quantity 1 > 0, premium 1 ≥ 0, currentPrice 100 > 0) — struck at
1000, far above the ±50% sampled window [50, 150].  Its curve is the constant
+100, so `calculateMaxLoss` returns the finite number 100 (not 'unlimited')
and `calculateMaxProfit` returns 'unlimited' (not a finite value): both parts
of the short-call clause fail. -/
theorem claim9_counterexample :
    legSCFar.side = PositionSide.short ∧
    legSCFar.optionType = OptionType.call ∧
    0 < legSCFar.quantity ∧ 0 < legSCFar.instrument.multiplier ∧
    0 ≤ legSCFar.premium ∧ (0 : ℚ) < 100 ∧
    calculateMaxLoss [legSCFar] 100 = some (MaxR.num 100) ∧
    calculateMaxProfit [legSCFar] 100 = some MaxR.unlimited := by
  have hv : ∀ k : ℕ, k ≤ 100 →
      (mkPoint [legSCFar] (priceAt 100 (1 / 2) k)).pnl = 100 := by
    intro k hk
    show round2 (calculateTotalPayoff [legSCFar] (priceAt 100 (1 / 2) k)) = 100
    rw [total_single, shortCall_payoff rfl rfl]
    have hpk : priceAt 100 (1 / 2) k = 50 + k := by
      unfold priceAt; ring
    have hle : priceAt 100 (1 / 2) k - legSCFar.strike ≤ 0 := by
      rw [hpk]
      show (50 : ℚ) + k - 1000 ≤ 0
      have hkq : (k : ℚ) ≤ 100 := by exact_mod_cast hk
      linarith
    rw [max_eq_left hle]
    show round2 ((1 - 0) * 1 * 100) = 100
    norm_num
    have := round2_int 100
    rw [show ((100 : ℤ) : ℚ) = (100 : ℚ) from by norm_num] at this
    rw [this]
  have h2 : (0 : ℚ) < 100 * (1 / 2) := by norm_num
  refine ⟨rfl, rfl, by norm_num [legSCFar], by norm_num [legSCFar, spxI],
    by norm_num [legSCFar], by norm_num, ?_, ?_⟩
  · exact maxLoss_const h2 hv (by norm_num)
  · exact maxProfit_const h2 hv (by norm_num)

/-- C9 amended witness: short call strike 100 premium 2 and long call strike
100 premium 2 on SPX (multiplier 100) at current price 100. -/
theorem claim9_witness :
    calculateMaxLoss [legSC100] 100 = some MaxR.unlimited ∧
    (calculateMaxProfit [legSC100] 100).map MaxR.isUnlimited = some false ∧
    calculateMaxProfit [legLC100b] 100 = some MaxR.unlimited :=
  claim9_amended legSC100 legLC100b 100 rfl rfl
    (by norm_num [legSC100]) (by norm_num [legSC100, spxI])
    (by norm_num [legSC100]) (by norm_num)
    (by norm_num [legSC100, spxI]) (by norm_num [legSC100])
    (by norm_num [legSC100, spxI]) rfl rfl
    (by norm_num [legLC100b]) (by norm_num [legLC100b, spxI])
    (by norm_num [legLC100b]) (by norm_num [legLC100b, spxI])

end PayoffPlanner
